import Mathlib

/-!
# Testimonium contract binding: event iterator, watch loop and log parsing

A shallow embedding of the `SubmitBlockHeader` event access code of
`Testimonium.go` (the iterator `TestimoniumSubmitBlockHeaderIterator` with
`Next`, `Error`, `Close`; `FilterSubmitBlockHeader`, `WatchSubmitBlockHeader`
and `ParseSubmitBlockHeader`), and of the read and write facades with their
session variants.

Conventions of the embedding:

* a Go `error` is `Option Error`, with `none` for `nil`;
* a Go pointer that may be `nil` is an `Option`;
* a Go channel is the list of values buffered in it plus a closed flag;
* a `select` over several ready cases is resolved by an explicit `Pick`;
* a call that would wait forever in the given channel state returns `none`.

The library types `types.Log`, `bind.BoundContract` and
`ethereum.Subscription` are not part of the binding; the operations the
binding calls on them are fields of the structures below.
-/

namespace Testimonium

/-! ## Data model -/

/-- A non-nil Go `error` value. -/
structure Error where
  msg : String
deriving DecidableEq, Repr

/-- A fixed-size Go byte array `[n]byte`. -/
structure Bytes (n : Nat) where
  data : List (Fin 256)
  size : data.length = n
deriving DecidableEq, Repr

/-- The zero value of `[n]byte`. -/
def Bytes.zero (n : Nat) : Bytes n := ⟨List.replicate n 0, by simp⟩

instance (n : Nat) : Inhabited (Bytes n) := ⟨Bytes.zero n⟩

/-- The record `types.Log` of the library: a raw contract log with its
provenance (emitting address, block, transaction, position). -/
structure Log where
  Address : Bytes 20
  Topics : List (Bytes 32)
  Data : List (Fin 256)
  BlockNumber : Nat
  TxHash : Bytes 32
  TxIndex : Nat
  BlockHash : Bytes 32
  Index : Nat
  Removed : Bool
deriving DecidableEq, Repr

/-- The zero value of `types.Log`. -/
def Log.zero : Log :=
  { Address := Bytes.zero 20, Topics := [], Data := [], BlockNumber := 0,
    TxHash := Bytes.zero 32, TxIndex := 0, BlockHash := Bytes.zero 32,
    Index := 0, Removed := false }

instance : Inhabited Log := ⟨Log.zero⟩

/-- The fields of a `SubmitBlockHeader` event that the ABI declares:
`event SubmitBlockHeader(bytes32 hash, bytes32 hashWithoutNonce,
uint256 nonce, bytes32 parent)`.  `Nonce` is a `*big.Int`. -/
structure SubmitBlockHeaderFields where
  Hash : Bytes 32
  HashWithoutNonce : Bytes 32
  Nonce : Option Int
  Parent : Bytes 32
deriving DecidableEq, Repr

/-- The struct `TestimoniumSubmitBlockHeader`. -/
structure TestimoniumSubmitBlockHeader where
  Hash : Bytes 32
  HashWithoutNonce : Bytes 32
  Nonce : Option Int
  Parent : Bytes 32
  Raw : Log
deriving DecidableEq, Repr

/-- The value of `new(TestimoniumSubmitBlockHeader)`: every field zero. -/
def TestimoniumSubmitBlockHeader.new : TestimoniumSubmitBlockHeader :=
  { Hash := Bytes.zero 32, HashWithoutNonce := Bytes.zero 32, Nonce := none,
    Parent := Bytes.zero 32, Raw := Log.zero }

/-- A Go channel: the buffered values, oldest first, and whether the
channel has been closed. -/
structure Chan (α : Type) where
  buf : List α
  closed : Bool
deriving DecidableEq, Repr

/-- A receive `<-c` that is ready yields the oldest buffered value, or the
zero value when the channel is closed and drained; `none` when the receive
is not ready (open channel, nothing buffered). -/
def Chan.recv {α : Type} [Inhabited α] (c : Chan α) : Option (α × Chan α) :=
  match c.buf with
  | x :: xs => some (x, { c with buf := xs })
  | [] => if c.closed then some (default, c) else none

/-- The producer side of a channel: values sent into it (a closed channel
takes no more values). -/
def Chan.push {α : Type} (c : Chan α) (xs : List α) : Chan α :=
  if c.closed then c else { c with buf := c.buf ++ xs }

/-- The call `close(c)`. -/
def Chan.close {α : Type} (c : Chan α) : Chan α := { c with closed := true }

/-- The interface `ethereum.Subscription` as the binding uses it: the
error channel behind `Err()` and the method `Unsubscribe()`.
`unsubscribeCalls` counts the invocations of `Unsubscribe()`;
`unsubscribed` records that the subscription has been released. -/
structure Subscription where
  errc : Chan (Option Error)
  unsubscribed : Bool
  unsubscribeCalls : Nat
deriving DecidableEq, Repr

/-- The method `Err()`. -/
def Subscription.Err (s : Subscription) : Chan (Option Error) := s.errc

/-- The method `Unsubscribe()`: every invocation is counted; the first one
releases the subscription and closes the error channel, a repeated one has
no further effect (the contract of the library interface). -/
def Subscription.Unsubscribe (s : Subscription) : Subscription :=
  if s.unsubscribed then { s with unsubscribeCalls := s.unsubscribeCalls + 1 }
  else { errc := s.errc.close, unsubscribed := true,
         unsubscribeCalls := s.unsubscribeCalls + 1 }

/-- The options `bind.FilterOpts` (block range of the query). -/
structure FilterOpts where
  Start : Nat
  End : Option Nat
deriving DecidableEq, Repr

/-- The options `bind.WatchOpts`. -/
structure WatchOpts where
  Start : Option Nat
deriving DecidableEq, Repr

/-- The handle `*bind.BoundContract` with the three library operations the
event code calls.  `UnpackLog out event log` is only ever called on a
fresh `out`; it writes the ABI-declared fields of `out` (the first
component) and returns an error or `nil` (the second); it never touches
`Raw`, which is no ABI field.  `FilterLogs` and `WatchLogs` return the log
channel and the subscription, or an error. -/
structure BoundContract where
  UnpackLog : String → Log → SubmitBlockHeaderFields × Option Error
  FilterLogs : FilterOpts → String → Except Error (Chan Log × Subscription)
  WatchLogs : WatchOpts → String → Except Error (Chan Log × Subscription)

/-- The struct `TestimoniumFilterer`. -/
structure TestimoniumFilterer where
  contract : BoundContract

/-- The struct `TestimoniumSubmitBlockHeaderIterator`. -/
structure TestimoniumSubmitBlockHeaderIterator where
  Event : Option TestimoniumSubmitBlockHeader
  contract : BoundContract
  event : String
  logs : Chan Log
  sub : Subscription
  done : Bool
  fail : Option Error

/-- The effect of `contract.UnpackLog(out, event, log)` on a record `out`:
the ABI-declared fields are overwritten, `Raw` is kept. -/
def TestimoniumSubmitBlockHeader.unpacked (out : TestimoniumSubmitBlockHeader)
    (f : SubmitBlockHeaderFields) : TestimoniumSubmitBlockHeader :=
  { out with Hash := f.Hash, HashWithoutNonce := f.HashWithoutNonce,
             Nonce := f.Nonce, Parent := f.Parent }

/-- How a `select` between the log channel and the error channel is
resolved when both cases are ready. -/
inductive Pick where
  | logs
  | err
deriving DecidableEq, Repr

/-! ## The iterator -/

/-- The body of a `case log := <-it.logs:` branch of `Next` (the same in
both selects): allocate a fresh event, unpack the log into it, on failure
record the error and return false, else attach the raw log and return
true.  The receive itself (removing `log` from the channel) has already
happened. -/
def TestimoniumSubmitBlockHeaderIterator.caseLog
    (it : TestimoniumSubmitBlockHeaderIterator) (log : Log) :
    Bool × TestimoniumSubmitBlockHeaderIterator :=
  let ev := TestimoniumSubmitBlockHeader.new
  let r := it.contract.UnpackLog it.event log
  let ev := ev.unpacked r.1
  match r.2 with
  | some err => (false, { it with Event := some ev, fail := some err })
  | none => (true, { it with Event := some { ev with Raw := log } })

/-- The method `Next`.  `none` means that the call waits: the iterator is
still in progress and neither the log channel nor the error channel is
ready. -/
def TestimoniumSubmitBlockHeaderIterator.Next (pick : Pick)
    (it : TestimoniumSubmitBlockHeaderIterator) :
    Option (Bool × TestimoniumSubmitBlockHeaderIterator) :=
  -- If the iterator failed, stop iterating
  if it.fail.isSome then some (false, it)
  -- If the iterator completed, deliver directly whatever's available
  else if it.done = true then
    match it.logs.recv with
    | some (log, rest) => some ({ it with logs := rest }.caseLog log)
    | none => some (false, it)
  -- Iterator still in progress, wait for either a data or an error event
  else
    match it.logs.recv, it.sub.Err.recv with
    | none, none => none
    | some (log, rest), none => some ({ it with logs := rest }.caseLog log)
    | none, some (err, erest) =>
        TestimoniumSubmitBlockHeaderIterator.Next pick
          { it with sub := { it.sub with errc := erest }, done := true, fail := err }
    | some (log, rest), some (err, erest) =>
        match pick with
        | Pick.logs => some ({ it with logs := rest }.caseLog log)
        | Pick.err =>
            TestimoniumSubmitBlockHeaderIterator.Next pick
              { it with sub := { it.sub with errc := erest }, done := true, fail := err }
termination_by (if it.done = true then 0 else 1)
decreasing_by
  all_goals simp_wf
  all_goals simp_all

/-- The method `Next` once more, statement by statement, counting in
addition how many times the call invokes `Next` again (the first
component). -/
def TestimoniumSubmitBlockHeaderIterator.NextCounting (pick : Pick)
    (it : TestimoniumSubmitBlockHeaderIterator) :
    Option (Nat × Bool × TestimoniumSubmitBlockHeaderIterator) :=
  if it.fail.isSome then some (0, false, it)
  else if it.done = true then
    match it.logs.recv with
    | some (log, rest) => some (0, { it with logs := rest }.caseLog log)
    | none => some (0, false, it)
  else
    match it.logs.recv, it.sub.Err.recv with
    | none, none => none
    | some (log, rest), none => some (0, { it with logs := rest }.caseLog log)
    | none, some (err, erest) =>
        match TestimoniumSubmitBlockHeaderIterator.NextCounting pick
          { it with sub := { it.sub with errc := erest }, done := true, fail := err } with
        | none => none
        | some (n, r) => some (n + 1, r)
    | some (log, rest), some (err, erest) =>
        match pick with
        | Pick.logs => some (0, { it with logs := rest }.caseLog log)
        | Pick.err =>
            match TestimoniumSubmitBlockHeaderIterator.NextCounting pick
              { it with sub := { it.sub with errc := erest }, done := true, fail := err } with
            | none => none
            | some (n, r) => some (n + 1, r)
termination_by (if it.done = true then 0 else 1)
decreasing_by
  all_goals simp_wf
  all_goals simp_all

/-- The method `Error`. -/
def TestimoniumSubmitBlockHeaderIterator.Error
    (it : TestimoniumSubmitBlockHeaderIterator) : Option Testimonium.Error :=
  it.fail

/-- The method `Close`: unsubscribes and returns `nil`. -/
def TestimoniumSubmitBlockHeaderIterator.Close
    (it : TestimoniumSubmitBlockHeaderIterator) :
    Option Testimonium.Error × TestimoniumSubmitBlockHeaderIterator :=
  (none, { it with sub := it.sub.Unsubscribe })

/-- The iterator after the error case of the select of `Next` has fired with
`err`: `it.done = true; it.fail = err` (and `err` has left the channel). -/
def afterErr (it : TestimoniumSubmitBlockHeaderIterator) (err : Option Error)
    (erest : Chan (Option Error)) : TestimoniumSubmitBlockHeaderIterator :=
  { it with sub := { it.sub with errc := erest }, done := true, fail := err }

/-- What the producers do between two calls of `Next`: records sent into
the log channel, values sent into the error channel, and whether the error
channel is closed afterwards. -/
structure Arrival where
  logs : List Log
  errs : List (Option Error)
  closeErr : Bool
deriving DecidableEq, Repr

/-- Nothing arrives. -/
def Arrival.nothing : Arrival := { logs := [], errs := [], closeErr := false }

/-- The iterator after the producers have acted: only the two channels
change. -/
def Arrival.apply (a : Arrival) (it : TestimoniumSubmitBlockHeaderIterator) :
    TestimoniumSubmitBlockHeaderIterator :=
  { it with
    logs := it.logs.push a.logs
    sub := { it.sub with
             errc := if a.closeErr then (it.sub.errc.push a.errs).close
                     else it.sub.errc.push a.errs } }

/-- A caller that calls `Next` once per list entry; before each call the
producers act as the entry says and the select of the call is resolved by
the entry's pick.  The result lists what the calls returned, in order, and
the final iterator; `none` when one of the calls waits forever. -/
def runNext : List (Arrival × Pick) → TestimoniumSubmitBlockHeaderIterator →
    Option (List Bool × TestimoniumSubmitBlockHeaderIterator)
  | [], it => some ([], it)
  | (a, p) :: rest, it =>
    match (a.apply it).Next p with
    | none => none
    | some (b, it1) =>
      match runNext rest it1 with
      | none => none
      | some (bs, fin) => some (b :: bs, fin)

/-- The error channel is closed and nothing else arrives (what the end of
the subscription, or `Unsubscribe`, does to the iterator's channels). -/
def Arrival.closing : Arrival := { logs := [], errs := [], closeErr := true }

/-- The subscription sends the error `e` and nothing else arrives. -/
def Arrival.failing (e : Error) : Arrival :=
  { logs := [], errs := [some e], closeErr := false }

/-- One thing that happens to an iterator: the caller calls `Next` (with
the resolution of its select), `Error` or `Close`, or the producers act. -/
inductive Op where
  | next (pick : Pick)
  | error
  | close
  | arrive (a : Arrival)
deriving DecidableEq, Repr

/-- A sequence of calls and arrivals run on an iterator: what the calls of
`Next` returned, in order, and the final iterator; `none` when a call of
`Next` waits forever.  `Error` only reads `fail`; `Close` replaces the
subscription by the unsubscribed one. -/
def runOps : List Op → TestimoniumSubmitBlockHeaderIterator →
    Option (List Bool × TestimoniumSubmitBlockHeaderIterator)
  | [], it => some ([], it)
  | Op.next p :: rest, it =>
    match it.Next p with
    | none => none
    | some (b, it1) =>
      match runOps rest it1 with
      | none => none
      | some (bs, fin) => some (b :: bs, fin)
  | Op.error :: rest, it => runOps rest it
  | Op.close :: rest, it => runOps rest it.Close.2
  | Op.arrive a :: rest, it => runOps rest (a.apply it)

/-! ## Filter, watch and parse -/

/-- The method `FilterSubmitBlockHeader`, returning the Go pair
`(iterator, error)`. -/
def TestimoniumFilterer.FilterSubmitBlockHeader (_Testimonium : TestimoniumFilterer)
    (opts : FilterOpts) :
    Option TestimoniumSubmitBlockHeaderIterator × Option Error :=
  match _Testimonium.contract.FilterLogs opts "SubmitBlockHeader" with
  | Except.error err => (none, some err)
  | Except.ok (logs, sub) =>
    (some { Event := none, contract := _Testimonium.contract,
            event := "SubmitBlockHeader", logs := logs, sub := sub,
            done := false, fail := none }, none)

/-- The method `ParseSubmitBlockHeader`, returning the Go pair
`(event, error)`. -/
def TestimoniumFilterer.ParseSubmitBlockHeader (_Testimonium : TestimoniumFilterer)
    (log : Log) : Option TestimoniumSubmitBlockHeader × Option Error :=
  let event := TestimoniumSubmitBlockHeader.new
  let r := _Testimonium.contract.UnpackLog "SubmitBlockHeader" log
  let event := event.unpacked r.1
  match r.2 with
  | some err => (none, some err)
  | none => (some event, none)

/-- How the inner select of the watch loop (delivery to the sink) is
resolved: the sink takes the event, the error channel yields a value, or
`quit` fires. -/
inductive Deliver where
  | sink
  | err (e : Option Error)
  | quit
deriving DecidableEq, Repr

/-- How the outer select of the watch loop is resolved in one iteration: a
log arrives (with the resolution of the inner select, which is reached only
when the log decodes), the error channel yields a value, or `quit` fires. -/
inductive Wake where
  | log (l : Log) (d : Deliver)
  | err (e : Option Error)
  | quit
deriving DecidableEq, Repr

/-- The state of the goroutine started by `WatchSubmitBlockHeader`: the
underlying subscription, the events sent to the sink so far (oldest
first), the logs taken from the log channel so far, and the value the
loop returned, if it has returned. -/
structure WatchState where
  sub : Subscription
  sink : List TestimoniumSubmitBlockHeader
  received : List Log
  result : Option (Option Error)
deriving DecidableEq, Repr

/-- A `return r` of the loop function: the deferred `sub.Unsubscribe()`
runs and the result is reported. -/
def WatchState.exit (st : WatchState) (r : Option Error) : WatchState :=
  { st with sub := st.sub.Unsubscribe, result := some r }

/-- The `for { select { ... } }` loop of `WatchSubmitBlockHeader`, run
against a schedule: one `Wake` per iteration.  When the schedule is used up
the loop is still waiting in its outer select (`result = none`). -/
def watchLoop (contract : BoundContract) : List Wake → WatchState → WatchState
  | [], st => st
  | Wake.log log d :: ws, st =>
    -- New log arrived, parse the event and forward to the user
    let st := { st with received := st.received ++ [log] }
    let event := TestimoniumSubmitBlockHeader.new
    let r := contract.UnpackLog "SubmitBlockHeader" log
    let event := event.unpacked r.1
    match r.2 with
    | some err => st.exit (some err)
    | none =>
      let event := { event with Raw := log }
      match d with
      | Deliver.sink => watchLoop contract ws { st with sink := st.sink ++ [event] }
      | Deliver.err err => st.exit err
      | Deliver.quit => st.exit none
  | Wake.err err :: _, st => st.exit err
  | Wake.quit :: _, st => st.exit none

/-- The method `WatchSubmitBlockHeader`, returning the Go pair
`(subscription, error)`; the subscription it returns is represented by the
initial state of the goroutine that `event.NewSubscription` starts.  What
the log channel of `WatchLogs` delivers to that goroutine is given by the
schedule of `watchLoop`. -/
def TestimoniumFilterer.WatchSubmitBlockHeader (_Testimonium : TestimoniumFilterer)
    (opts : WatchOpts) : Option WatchState × Option Error :=
  match _Testimonium.contract.WatchLogs opts "SubmitBlockHeader" with
  | Except.error err => (none, some err)
  | Except.ok (_, sub) =>
    (some { sub := sub, sink := [], received := [], result := none }, none)

/-- The event the watch loop and `Next` build from a log that unpacks: the
unpacked fields with `Raw` set to the log. -/
def decodedEvent (contract : BoundContract) (log : Log) : TestimoniumSubmitBlockHeader :=
  { TestimoniumSubmitBlockHeader.new.unpacked
      (contract.UnpackLog "SubmitBlockHeader" log).1 with Raw := log }

/-- The iteration of the watch loop in which `log` arrives and the sink
takes the event. -/
def delivered (log : Log) : Wake := Wake.log log Deliver.sink

/-- What the caller reads after a call of `Next` that returned `b` and left
the iterator `it`: the `Raw` of `it.Event` when `b` is true, nothing
otherwise. -/
def exposedRaw (b : Bool) (it : TestimoniumSubmitBlockHeaderIterator) : List Log :=
  if b then
    match it.Event with
    | some ev => [ev.Raw]
    | none => []
  else []

/-- The caller of `runNext`, recording instead of the results the `Raw`
values exposed by the calls that returned true, in order. -/
def runRaws : List (Arrival × Pick) → TestimoniumSubmitBlockHeaderIterator →
    Option (List Log × TestimoniumSubmitBlockHeaderIterator)
  | [], it => some ([], it)
  | (a, p) :: rest, it =>
    match (a.apply it).Next p with
    | none => none
    | some (b, it1) =>
      match runRaws rest it1 with
      | none => none
      | some (raws, fin) => some (exposedRaw b it1 ++ raws, fin)

/-- The records the producers send into the log channel during a run, in
order. -/
def arrivedLogs : List (Arrival × Pick) → List Log
  | [] => []
  | (a, _) :: rest => a.logs ++ arrivedLogs rest

/-! ## Call and transact facades and sessions -/

/-- A Go value passed to the ABI layer as an argument or written by it as
an output (`interface{}`): the kinds the methods of this contract use. -/
inductive Value where
  | bytes32 (b : Bytes 32)
  | bigInt (n : Option Int)
  | uint8 (n : Fin 256)
  | bytes (bs : List (Fin 256))
  | bool (b : Bool)
deriving DecidableEq, Repr

/-- The `result` argument of `BoundContract.Call` as the facades build it,
given by the values behind its pointers: a pointer to one value
(`out := ret0`), a slice of pointers (`out := &[]interface{}{ret0, ...}`),
or a pointer to a struct with named fields (`out := ret`). -/
inductive Out where
  | single (v : Value)
  | slice (vs : List Value)
  | record (fields : List (String × Value))
deriving DecidableEq, Repr

/-- The options `bind.CallOpts`. -/
structure CallOpts where
  Pending : Bool
  From : Bytes 20
  BlockNumber : Option Int
deriving DecidableEq, Repr

/-- The options `bind.TransactOpts`. -/
structure TransactOpts where
  From : Bytes 20
  Nonce : Option Int
  GasPrice : Option Int
  GasLimit : Nat
  Value : Option Int
deriving DecidableEq, Repr

/-- The record `types.Transaction` of the library. -/
structure Transaction where
  Nonce : Nat
  GasPrice : Int
  GasLimit : Nat
  To : Option (Bytes 20)
  Amount : Int
  Data : List (Fin 256)
deriving DecidableEq, Repr

/-- The handle `*bind.BoundContract` as the read and write facades use it,
with the two library operations they call.  `Call opts result method
params` writes the outputs of the call into `result`, whose contents after
the call are the first component, and returns an error or `nil`;
`Transact opts method params` returns the submitted transaction or `nil`,
and an error or `nil`. -/
structure BoundContractCalls where
  Call : CallOpts → Out → String → List Value → Out × Option Error
  Transact : TransactOpts → String → List Value → Option Transaction × Option Error

/-- The struct `TestimoniumCaller`. -/
structure TestimoniumCaller where
  contract : BoundContractCalls

/-- The struct `TestimoniumTransactor`. -/
structure TestimoniumTransactor where
  contract : BoundContractCalls

/-- The struct `Testimonium`, which embeds the three facades. -/
structure Testimonium where
  TestimoniumCaller : TestimoniumCaller
  TestimoniumTransactor : TestimoniumTransactor
  TestimoniumFilterer : TestimoniumFilterer

/-- The struct `TestimoniumSession`. -/
structure TestimoniumSession where
  Contract : Testimonium
  CallOpts : CallOpts
  TransactOpts : TransactOpts

/-- The struct `TestimoniumCallerSession`. -/
structure TestimoniumCallerSession where
  Contract : TestimoniumCaller
  CallOpts : CallOpts

/-- The struct `TestimoniumTransactorSession`. -/
structure TestimoniumTransactorSession where
  Contract : TestimoniumTransactor
  TransactOpts : TransactOpts

/-- The value of `new([32]byte)`. -/
def newBytes32 : Value := Value.bytes32 (Bytes.zero 32)

/-- The value of `new(*big.Int)`: a nil pointer. -/
def newBigInt : Value := Value.bigInt none

/-- The value of `new(bool)`. -/
def newBool : Value := Value.bool false

/-- The method `TestimoniumCaller.GetBlock`; it returns the values behind
`ret0` to `ret6` after the call, and the error. -/
def TestimoniumCaller.GetBlock (_Testimonium : TestimoniumCaller) (opts : CallOpts)
    (hash : Bytes 32) : Out × Option Error :=
  let ret0 := newBytes32
  let ret1 := newBigInt
  let ret2 := newBigInt
  let ret3 := newBigInt
  let ret4 := newBigInt
  let ret5 := newBigInt
  let ret6 := newBytes32
  let out := Out.slice [ret0, ret1, ret2, ret3, ret4, ret5, ret6]
  _Testimonium.contract.Call opts out "getBlock" [Value.bytes32 hash]

/-- The method `TestimoniumCaller.GetBlockHashOfEndpoint`. -/
def TestimoniumCaller.GetBlockHashOfEndpoint (_Testimonium : TestimoniumCaller)
    (opts : CallOpts) (index : Option Int) : Out × Option Error :=
  let ret0 := newBytes32
  let out := Out.single ret0
  _Testimonium.contract.Call opts out "getBlockHashOfEndpoint" [Value.bigInt index]

/-- The method `TestimoniumCaller.GetNoOfForks`. -/
def TestimoniumCaller.GetNoOfForks (_Testimonium : TestimoniumCaller) (opts : CallOpts) :
    Out × Option Error :=
  let ret0 := newBigInt
  let out := Out.single ret0
  _Testimonium.contract.Call opts out "getNoOfForks" []

/-- The method `TestimoniumCaller.Headers`; it returns the struct behind
`ret` after the call, and the error. -/
def TestimoniumCaller.Headers (_Testimonium : TestimoniumCaller) (opts : CallOpts)
    (arg0 : Bytes 32) : Out × Option Error :=
  let ret := Out.record
    [("Parent", newBytes32), ("StateRoot", newBytes32), ("TransactionsRoot", newBytes32),
     ("ReceiptsRoot", newBytes32), ("BlockNumber", newBigInt),
     ("RlpHeaderHashWithoutNonce", newBytes32), ("Nonce", newBigInt),
     ("LockedUntil", newBigInt), ("TotalDifficulty", newBigInt),
     ("OrderedIndex", newBigInt), ("IterableIndex", newBigInt), ("LatestFork", newBytes32)]
  let out := ret
  _Testimonium.contract.Call opts out "headers" [Value.bytes32 arg0]

/-- The method `TestimoniumCaller.IsBlock`. -/
def TestimoniumCaller.IsBlock (_Testimonium : TestimoniumCaller) (opts : CallOpts)
    (hash : Bytes 32) : Out × Option Error :=
  let ret0 := newBool
  let out := Out.single ret0
  _Testimonium.contract.Call opts out "isBlock" [Value.bytes32 hash]

/-- The method `TestimoniumCaller.IsUnlocked`. -/
def TestimoniumCaller.IsUnlocked (_Testimonium : TestimoniumCaller) (opts : CallOpts)
    (blockHash : Bytes 32) : Out × Option Error :=
  let ret0 := newBool
  let out := Out.single ret0
  _Testimonium.contract.Call opts out "isUnlocked" [Value.bytes32 blockHash]

/-- The method `TestimoniumCaller.VerifyTransaction`. -/
def TestimoniumCaller.VerifyTransaction (_Testimonium : TestimoniumCaller) (opts : CallOpts)
    (txHash : Bytes 32) (requested : Bytes 32) (noOfConfirmations : Fin 256) :
    Out × Option Error :=
  let ret0 := newBool
  let out := Out.single ret0
  _Testimonium.contract.Call opts out "verifyTransaction"
    [Value.bytes32 txHash, Value.bytes32 requested, Value.uint8 noOfConfirmations]

/-- The method `TestimoniumTransactor.DisputeBlock`. -/
def TestimoniumTransactor.DisputeBlock (_Testimonium : TestimoniumTransactor)
    (opts : TransactOpts) (blockHash : Bytes 32) : Option Transaction × Option Error :=
  _Testimonium.contract.Transact opts "disputeBlock" [Value.bytes32 blockHash]

/-- The method `TestimoniumTransactor.SubmitHeader`. -/
def TestimoniumTransactor.SubmitHeader (_Testimonium : TestimoniumTransactor)
    (opts : TransactOpts) (_rlpHeader : List (Fin 256)) :
    Option Transaction × Option Error :=
  _Testimonium.contract.Transact opts "submitHeader" [Value.bytes _rlpHeader]

/-- The method `TestimoniumSession.GetBlock`. -/
def TestimoniumSession.GetBlock (_Testimonium : TestimoniumSession) (hash : Bytes 32) :
    Out × Option Error :=
  _Testimonium.Contract.TestimoniumCaller.GetBlock _Testimonium.CallOpts hash

/-- The method `TestimoniumCallerSession.GetBlock`. -/
def TestimoniumCallerSession.GetBlock (_Testimonium : TestimoniumCallerSession) (hash : Bytes 32) :
    Out × Option Error :=
  _Testimonium.Contract.GetBlock _Testimonium.CallOpts hash

/-- The method `TestimoniumSession.GetBlockHashOfEndpoint`. -/
def TestimoniumSession.GetBlockHashOfEndpoint (_Testimonium : TestimoniumSession) (index : Option Int) :
    Out × Option Error :=
  _Testimonium.Contract.TestimoniumCaller.GetBlockHashOfEndpoint _Testimonium.CallOpts index

/-- The method `TestimoniumCallerSession.GetBlockHashOfEndpoint`. -/
def TestimoniumCallerSession.GetBlockHashOfEndpoint (_Testimonium : TestimoniumCallerSession) (index : Option Int) :
    Out × Option Error :=
  _Testimonium.Contract.GetBlockHashOfEndpoint _Testimonium.CallOpts index

/-- The method `TestimoniumSession.GetNoOfForks`. -/
def TestimoniumSession.GetNoOfForks (_Testimonium : TestimoniumSession) :
    Out × Option Error :=
  _Testimonium.Contract.TestimoniumCaller.GetNoOfForks _Testimonium.CallOpts

/-- The method `TestimoniumCallerSession.GetNoOfForks`. -/
def TestimoniumCallerSession.GetNoOfForks (_Testimonium : TestimoniumCallerSession) :
    Out × Option Error :=
  _Testimonium.Contract.GetNoOfForks _Testimonium.CallOpts

/-- The method `TestimoniumSession.Headers`. -/
def TestimoniumSession.Headers (_Testimonium : TestimoniumSession) (arg0 : Bytes 32) :
    Out × Option Error :=
  _Testimonium.Contract.TestimoniumCaller.Headers _Testimonium.CallOpts arg0

/-- The method `TestimoniumCallerSession.Headers`. -/
def TestimoniumCallerSession.Headers (_Testimonium : TestimoniumCallerSession) (arg0 : Bytes 32) :
    Out × Option Error :=
  _Testimonium.Contract.Headers _Testimonium.CallOpts arg0

/-- The method `TestimoniumSession.IsBlock`. -/
def TestimoniumSession.IsBlock (_Testimonium : TestimoniumSession) (hash : Bytes 32) :
    Out × Option Error :=
  _Testimonium.Contract.TestimoniumCaller.IsBlock _Testimonium.CallOpts hash

/-- The method `TestimoniumCallerSession.IsBlock`. -/
def TestimoniumCallerSession.IsBlock (_Testimonium : TestimoniumCallerSession) (hash : Bytes 32) :
    Out × Option Error :=
  _Testimonium.Contract.IsBlock _Testimonium.CallOpts hash

/-- The method `TestimoniumSession.IsUnlocked`. -/
def TestimoniumSession.IsUnlocked (_Testimonium : TestimoniumSession) (blockHash : Bytes 32) :
    Out × Option Error :=
  _Testimonium.Contract.TestimoniumCaller.IsUnlocked _Testimonium.CallOpts blockHash

/-- The method `TestimoniumCallerSession.IsUnlocked`. -/
def TestimoniumCallerSession.IsUnlocked (_Testimonium : TestimoniumCallerSession) (blockHash : Bytes 32) :
    Out × Option Error :=
  _Testimonium.Contract.IsUnlocked _Testimonium.CallOpts blockHash

/-- The method `TestimoniumSession.VerifyTransaction`. -/
def TestimoniumSession.VerifyTransaction (_Testimonium : TestimoniumSession) (txHash : Bytes 32) (requested : Bytes 32) (noOfConfirmations : Fin 256) :
    Out × Option Error :=
  _Testimonium.Contract.TestimoniumCaller.VerifyTransaction _Testimonium.CallOpts txHash requested noOfConfirmations

/-- The method `TestimoniumCallerSession.VerifyTransaction`. -/
def TestimoniumCallerSession.VerifyTransaction (_Testimonium : TestimoniumCallerSession) (txHash : Bytes 32) (requested : Bytes 32) (noOfConfirmations : Fin 256) :
    Out × Option Error :=
  _Testimonium.Contract.VerifyTransaction _Testimonium.CallOpts txHash requested noOfConfirmations

/-- The method `TestimoniumSession.DisputeBlock`. -/
def TestimoniumSession.DisputeBlock (_Testimonium : TestimoniumSession) (blockHash : Bytes 32) :
    Option Transaction × Option Error :=
  _Testimonium.Contract.TestimoniumTransactor.DisputeBlock _Testimonium.TransactOpts blockHash

/-- The method `TestimoniumTransactorSession.DisputeBlock`. -/
def TestimoniumTransactorSession.DisputeBlock (_Testimonium : TestimoniumTransactorSession) (blockHash : Bytes 32) :
    Option Transaction × Option Error :=
  _Testimonium.Contract.DisputeBlock _Testimonium.TransactOpts blockHash

/-- The method `TestimoniumSession.SubmitHeader`. -/
def TestimoniumSession.SubmitHeader (_Testimonium : TestimoniumSession) (_rlpHeader : List (Fin 256)) :
    Option Transaction × Option Error :=
  _Testimonium.Contract.TestimoniumTransactor.SubmitHeader _Testimonium.TransactOpts _rlpHeader

/-- The method `TestimoniumTransactorSession.SubmitHeader`. -/
def TestimoniumTransactorSession.SubmitHeader (_Testimonium : TestimoniumTransactorSession) (_rlpHeader : List (Fin 256)) :
    Option Transaction × Option Error :=
  _Testimonium.Contract.SubmitHeader _Testimonium.TransactOpts _rlpHeader

/-! ## The iterator with `Event` as a pointer -/

/-- The heap of `TestimoniumSubmitBlockHeader` records: the record at
address `p` is `cells[p]`, and the addresses from `cells.length` on are not
allocated. -/
structure Heap where
  cells : List TestimoniumSubmitBlockHeader
deriving DecidableEq, Repr

/-- The record behind the pointer `p`, if `p` is allocated. -/
def Heap.read (h : Heap) (p : Nat) : Option TestimoniumSubmitBlockHeader :=
  h.cells[p]?

/-- The call `new(TestimoniumSubmitBlockHeader)`: a zero record at the first
address not yet allocated. -/
def Heap.alloc (h : Heap) : Nat × Heap :=
  (h.cells.length, { cells := h.cells ++ [TestimoniumSubmitBlockHeader.new] })

/-- A write through the pointer `p`. -/
def Heap.update (h : Heap) (p : Nat)
    (f : TestimoniumSubmitBlockHeader → TestimoniumSubmitBlockHeader) : Heap :=
  match h.cells[p]? with
  | some v => { cells := h.cells.set p (f v) }
  | none => h

/-- The struct `TestimoniumSubmitBlockHeaderIterator` with `Event` as the
pointer `*TestimoniumSubmitBlockHeader` that it is in the source. -/
structure IteratorRef where
  Event : Option Nat
  contract : BoundContract
  event : String
  logs : Chan Log
  sub : Subscription
  done : Bool
  fail : Option Error

/-- The iterator as its caller sees it: `Event` dereferenced. -/
def IteratorRef.view (heap : Heap) (it : IteratorRef) :
    TestimoniumSubmitBlockHeaderIterator :=
  { Event := it.Event.bind heap.read, contract := it.contract, event := it.event,
    logs := it.logs, sub := it.sub, done := it.done, fail := it.fail }

/-- The body of a `case log := <-it.logs:` branch of `Next` on the heap:
`it.Event = new(...)` allocates, `UnpackLog` writes the ABI-declared fields
through the pointer, and on success `it.Event.Raw = log` writes `Raw`. -/
def IteratorRef.caseLog (heap : Heap) (it : IteratorRef) (log : Log) :
    Bool × Heap × IteratorRef :=
  let a := heap.alloc
  let it := { it with Event := some a.1 }
  let r := it.contract.UnpackLog it.event log
  let heap := a.2.update a.1 (fun out =>
    { out with Hash := r.1.Hash, HashWithoutNonce := r.1.HashWithoutNonce,
               Nonce := r.1.Nonce, Parent := r.1.Parent })
  match r.2 with
  | some err => (false, heap, { it with fail := some err })
  | none => (true, heap.update a.1 (fun ev => { ev with Raw := log }), it)

/-- The method `Next` on the heap, statement by statement as `Next`. -/
def IteratorRef.Next (pick : Pick) (heap : Heap) (it : IteratorRef) :
    Option (Bool × Heap × IteratorRef) :=
  if it.fail.isSome then some (false, heap, it)
  else if it.done = true then
    match it.logs.recv with
    | some (log, rest) => some (IteratorRef.caseLog heap { it with logs := rest } log)
    | none => some (false, heap, it)
  else
    match it.logs.recv, it.sub.Err.recv with
    | none, none => none
    | some (log, rest), none => some (IteratorRef.caseLog heap { it with logs := rest } log)
    | none, some (err, erest) =>
        IteratorRef.Next pick heap
          { it with sub := { it.sub with errc := erest }, done := true, fail := err }
    | some (log, rest), some (err, erest) =>
        match pick with
        | Pick.logs => some (IteratorRef.caseLog heap { it with logs := rest } log)
        | Pick.err =>
            IteratorRef.Next pick heap
              { it with sub := { it.sub with errc := erest }, done := true, fail := err }
termination_by (if it.done = true then 0 else 1)
decreasing_by
  all_goals simp_wf
  all_goals simp_all

/-- The iterator on the heap after the error case of the select has fired
with `err`. -/
def IteratorRef.afterErr (it : IteratorRef) (err : Option Error)
    (erest : Chan (Option Error)) : IteratorRef :=
  { it with sub := { it.sub with errc := erest }, done := true, fail := err }

/-! ## Sample inputs -/

/-- A log with one byte of data from block `n`, position `n`. -/
def sampleLog (n : Nat) : Log :=
  { Log.zero with Data := [1], BlockNumber := n, Index := n }

/-- A log without data, which `sampleContract` cannot unpack. -/
def badLog : Log := { Log.zero with BlockNumber := 9, Index := 4 }

/-- The error of `sampleContract` on a log without data. -/
def decodeError : Error := ⟨"abi: unmarshalling empty output"⟩

/-- A subscription failure. -/
def subError : Error := ⟨"subscription failed"⟩

/-- A query failure. -/
def queryError : Error := ⟨"filter query failed"⟩

/-- A subscription that is still live: error channel open and empty. -/
def liveSub : Subscription :=
  { errc := { buf := [], closed := false }, unsubscribed := false, unsubscribeCalls := 0 }

/-- A subscription that completed without error: error channel closed. -/
def completedSub : Subscription :=
  { errc := { buf := [], closed := true }, unsubscribed := false, unsubscribeCalls := 0 }

/-- A subscription that failed: `subError` is waiting in the error
channel. -/
def failedSub : Subscription :=
  { errc := { buf := [some subError], closed := true }, unsubscribed := false,
    unsubscribeCalls := 0 }

/-- A contract handle whose decoder rejects logs without data and whose
historical query finds two logs and then completes. -/
def sampleContract : BoundContract :=
  { UnpackLog := fun _ log =>
      if log.Data = [] then
        ({ Hash := Bytes.zero 32, HashWithoutNonce := Bytes.zero 32, Nonce := none,
           Parent := Bytes.zero 32 }, some decodeError)
      else
        ({ Hash := log.BlockHash, HashWithoutNonce := log.TxHash,
           Nonce := some (Int.ofNat log.BlockNumber), Parent := Bytes.zero 32 }, none)
    FilterLogs := fun _ _ =>
      Except.ok ({ buf := [sampleLog 1, sampleLog 2], closed := false }, completedSub)
    WatchLogs := fun _ _ => Except.ok ({ buf := [], closed := false }, liveSub) }

/-- A contract handle whose queries fail. -/
def failingContract : BoundContract :=
  { sampleContract with
    FilterLogs := fun _ _ => Except.error queryError
    WatchLogs := fun _ _ => Except.error queryError }

/-- An iterator over `sampleContract` in a given state. -/
def sampleIterator (logs : List Log) (sub : Subscription) (done : Bool)
    (fail : Option Error) : TestimoniumSubmitBlockHeaderIterator :=
  { Event := none, contract := sampleContract, event := "SubmitBlockHeader",
    logs := { buf := logs, closed := false }, sub := sub, done := done, fail := fail }

/-- An iterator on the heap over `sampleContract` in a given state. -/
def sampleIteratorRef (event : Option Nat) (logs : List Log) (sub : Subscription)
    (done : Bool) (fail : Option Error) : IteratorRef :=
  { Event := event, contract := sampleContract, event := "SubmitBlockHeader",
    logs := { buf := logs, closed := false }, sub := sub, done := done, fail := fail }

/-- A heap holding one record, the event of an earlier call. -/
def sampleHeap : Heap := { cells := [decodedEvent sampleContract (sampleLog 0)] }

/-! ## Basic facts about `Next` -/

/-- A failed iterator: `Next` returns false and changes nothing. -/
theorem Next_of_fail (pick : Pick) (it : TestimoniumSubmitBlockHeaderIterator)
    (h : it.fail.isSome = true) : it.Next pick = some (false, it) := by
  rw [TestimoniumSubmitBlockHeaderIterator.Next]
  simp [h]

/-- A completed iterator without error: `Next` polls the log channel. -/
theorem Next_of_done (pick : Pick) (it : TestimoniumSubmitBlockHeaderIterator)
    (hf : it.fail = none) (hd : it.done = true) :
    it.Next pick =
      match it.logs.recv with
      | some (log, rest) => some ({ it with logs := rest }.caseLog log)
      | none => some (false, it) := by
  rw [TestimoniumSubmitBlockHeaderIterator.Next]
  simp [hf, hd]

/-- An iterator in progress whose select takes the log case. -/
theorem Next_takes_log (pick : Pick) (it : TestimoniumSubmitBlockHeaderIterator)
    (hf : it.fail = none) (hd : it.done = false) (log : Log) (rest : Chan Log)
    (hl : it.logs.recv = some (log, rest))
    (hp : pick = Pick.logs ∨ it.sub.Err.recv = none) :
    it.Next pick = some ({ it with logs := rest }.caseLog log) := by
  rw [TestimoniumSubmitBlockHeaderIterator.Next]
  simp only [hf, hd, hl]
  rcases hp with hp | hp
  · subst hp
    cases he : it.sub.Err.recv with
    | none => simp
    | some q => obtain ⟨e, r⟩ := q; simp
  · simp [hp]

/-- An iterator in progress whose select takes the error case: `done` and
`fail` are set and `Next` is invoked again. -/
theorem Next_takes_err (pick : Pick) (it : TestimoniumSubmitBlockHeaderIterator)
    (hf : it.fail = none) (hd : it.done = false) (err : Option Error)
    (erest : Chan (Option Error)) (he : it.sub.Err.recv = some (err, erest))
    (hp : pick = Pick.err ∨ it.logs.recv = none) :
    it.Next pick = (afterErr it err erest).Next pick := by
  rw [TestimoniumSubmitBlockHeaderIterator.Next]
  simp only [hf, hd, he]
  rcases hp with hp | hp
  · subst hp
    cases hl : it.logs.recv with
    | none => simp [afterErr]
    | some q => obtain ⟨l, r⟩ := q; simp [afterErr]
  · simp [hp, afterErr]

/-- An iterator in progress with neither channel ready: the call waits. -/
theorem Next_waits (pick : Pick) (it : TestimoniumSubmitBlockHeaderIterator)
    (hf : it.fail = none) (hd : it.done = false)
    (hl : it.logs.recv = none) (he : it.sub.Err.recv = none) :
    it.Next pick = none := by
  rw [TestimoniumSubmitBlockHeaderIterator.Next]
  simp [hf, hd, hl, he]

/-- The log case when the record decodes. -/
theorem caseLog_ok (it : TestimoniumSubmitBlockHeaderIterator) (log : Log)
    (h : (it.contract.UnpackLog it.event log).2 = none) :
    it.caseLog log =
      (true, { it with
        Event := some { TestimoniumSubmitBlockHeader.new.unpacked
                          (it.contract.UnpackLog it.event log).1 with Raw := log } }) := by
  simp [TestimoniumSubmitBlockHeaderIterator.caseLog, h]

/-- The log case when the record does not decode. -/
theorem caseLog_err (it : TestimoniumSubmitBlockHeaderIterator) (log : Log) (e : Error)
    (h : (it.contract.UnpackLog it.event log).2 = some e) :
    it.caseLog log =
      (false, { it with
        Event := some (TestimoniumSubmitBlockHeader.new.unpacked
                          (it.contract.UnpackLog it.event log).1),
        fail := some e }) := by
  simp [TestimoniumSubmitBlockHeaderIterator.caseLog, h]

/-- When nothing arrives the iterator is unchanged. -/
theorem Arrival.nothing_apply (it : TestimoniumSubmitBlockHeaderIterator) :
    Arrival.nothing.apply it = it := by
  cases it with
  | mk E c ev logs sub d f =>
    cases logs with
    | mk lb lc =>
      cases sub with
      | mk errc u n =>
        cases errc with
        | mk eb ec =>
          cases lc <;> cases ec <;> simp [Arrival.apply, Arrival.nothing, Chan.push]

/-- Arrivals leave `Event`, `done` and `fail` alone. -/
theorem Arrival.apply_frame (a : Arrival) (it : TestimoniumSubmitBlockHeaderIterator) :
    (a.apply it).fail = it.fail ∧ (a.apply it).done = it.done ∧
      (a.apply it).Event = it.Event := by
  simp [Arrival.apply]

/-- Once an error is recorded, every further call of `Next` returns false,
whatever arrives, and `Event`, `done` and `fail` stay as they are. -/
theorem runNext_of_fail (steps : List (Arrival × Pick))
    (it : TestimoniumSubmitBlockHeaderIterator) (h : it.fail.isSome = true) :
    ∃ fin, runNext steps it = some (List.replicate steps.length false, fin) ∧
      fin.fail = it.fail ∧ fin.done = it.done ∧ fin.Event = it.Event := by
  induction steps generalizing it with
  | nil => exact ⟨it, rfl, rfl, rfl, rfl⟩
  | cons s rest ih =>
    obtain ⟨a, p⟩ := s
    obtain ⟨hf, hd, hE⟩ := Arrival.apply_frame a it
    have h1 : (a.apply it).fail.isSome = true := by rw [hf]; exact h
    obtain ⟨fin, hrun, h2, h3, h4⟩ := ih (a.apply it) h1
    refine ⟨fin, ?_, h2.trans hf, h3.trans hd, h4.trans hE⟩
    simp [runNext, Next_of_fail p _ h1, hrun, List.replicate_succ]

/-- One step of draining: with no recorded error, a decodable record at the
head of the log channel and a subscription that has completed without error
(the iterator is done already, or the error channel yields nil), `Next`
returns true under either resolution of the select, exposes that record,
and the same conditions hold again for the rest of the channel. -/
theorem Next_drain_step (pick : Pick) (it : TestimoniumSubmitBlockHeaderIterator)
    (log : Log) (rest : Chan Log) (hf : it.fail = none)
    (hl : it.logs.recv = some (log, rest))
    (hdec : (it.contract.UnpackLog it.event log).2 = none)
    (hs : it.done = true ∨ (it.done = false ∧ ∃ erest, it.sub.Err.recv = some (none, erest))) :
    ∃ it1, it.Next pick = some (true, it1) ∧ it1.fail = none ∧ it1.logs = rest ∧
      it1.contract = it.contract ∧ it1.event = it.event ∧
      it1.Event = some { TestimoniumSubmitBlockHeader.new.unpacked
                          (it.contract.UnpackLog it.event log).1 with Raw := log } ∧
      (it1.done = true ∨
        (it1.done = false ∧ ∃ erest, it1.sub.Err.recv = some (none, erest))) := by
  rcases hs with hd | ⟨hd, erest, he⟩
  · rw [Next_of_done pick it hf hd, hl]
    simp only
    rw [caseLog_ok { it with logs := rest } log hdec]
    exact ⟨_, rfl, hf, rfl, rfl, rfl, rfl, Or.inl hd⟩
  · cases pick with
    | logs =>
      rw [Next_takes_log Pick.logs it hf hd log rest hl (Or.inl rfl),
        caseLog_ok { it with logs := rest } log hdec]
      exact ⟨_, rfl, hf, rfl, rfl, rfl, rfl, Or.inr ⟨hd, erest, he⟩⟩
    | err =>
      rw [Next_takes_err Pick.err it hf hd none erest he (Or.inl rfl),
        Next_of_done Pick.err (afterErr it none erest) rfl rfl]
      have hl2 : (afterErr it none erest).logs.recv = some (log, rest) := hl
      rw [hl2]
      simp only
      rw [caseLog_ok { afterErr it none erest with logs := rest } log hdec]
      exact ⟨_, rfl, rfl, rfl, rfl, rfl, rfl, Or.inl rfl⟩

/-- The last step of draining: with no recorded error, an empty open log
channel and a subscription that has completed without error, `Next`
returns false and records no error. -/
theorem Next_drain_end (pick : Pick) (it : TestimoniumSubmitBlockHeaderIterator)
    (hf : it.fail = none) (hl : it.logs.recv = none)
    (hs : it.done = true ∨ (it.done = false ∧ ∃ erest, it.sub.Err.recv = some (none, erest))) :
    ∃ it1, it.Next pick = some (false, it1) ∧ it1.fail = none := by
  rcases hs with hd | ⟨hd, erest, he⟩
  · rw [Next_of_done pick it hf hd, hl]
    exact ⟨it, rfl, hf⟩
  · rw [Next_takes_err pick it hf hd none erest he (Or.inr hl),
      Next_of_done pick (afterErr it none erest) rfl rfl]
    have hl2 : (afterErr it none erest).logs.recv = none := hl
    rw [hl2]
    exact ⟨_, rfl, rfl⟩

/-- Receiving from an open channel with buffered records. -/
theorem Chan.recv_cons {α : Type} [Inhabited α] (x : α) (xs : List α) (b : Bool) :
    Chan.recv ({ buf := x :: xs, closed := b } : Chan α) = some (x, { buf := xs, closed := b }) :=
  rfl

/-- Receiving from an open channel with nothing buffered is not ready. -/
theorem Chan.recv_open_empty {α : Type} [Inhabited α] :
    Chan.recv ({ buf := [], closed := false } : Chan α) = none :=
  rfl

/-- Draining a completed subscription: `n` decodable records in the open log
channel give `n` times true and then false, with no error recorded. -/
theorem runNext_drain (recs : List Log) :
    ∀ (picks : List Pick) (it : TestimoniumSubmitBlockHeaderIterator),
      it.fail = none → it.logs = { buf := recs, closed := false } →
      (∀ l ∈ recs, (it.contract.UnpackLog it.event l).2 = none) →
      (it.done = true ∨ (it.done = false ∧ ∃ erest, it.sub.Err.recv = some (none, erest))) →
      picks.length = recs.length + 1 →
      ∃ fin, runNext (picks.map fun p => (Arrival.nothing, p)) it =
          some (List.replicate recs.length true ++ [false], fin) ∧ fin.fail = none := by
  induction recs with
  | nil =>
    intro picks it hf hl _ hs hlen
    match picks, hlen with
    | [p], _ =>
      have hr : it.logs.recv = none := by rw [hl]; rfl
      obtain ⟨it1, h1, h2⟩ := Next_drain_end p it hf hr hs
      exact ⟨it1, by simp [runNext, Arrival.nothing_apply, h1], h2⟩
  | cons l rs ih =>
    intro picks it hf hl hdec hs hlen
    match picks, hlen with
    | p :: ps, hlen =>
      have hr : it.logs.recv = some (l, { buf := rs, closed := false }) := by rw [hl]; rfl
      obtain ⟨it1, h1, h2, h3, h4, h5, _, h7⟩ :=
        Next_drain_step p it l _ hf hr (hdec l (List.mem_cons_self l rs)) hs
      have hdec1 : ∀ x ∈ rs, (it1.contract.UnpackLog it1.event x).2 = none := by
        intro x hx
        rw [h4, h5]
        exact hdec x (List.mem_cons_of_mem l hx)
      obtain ⟨fin, hrun, hfin⟩ := ih ps it1 h2 h3 hdec1 h7 (by simpa using hlen)
      refine ⟨fin, ?_, hfin⟩
      simp [runNext, Arrival.nothing_apply, h1, hrun, List.replicate_succ]

/-- Running two lists of calls one after the other. -/
theorem runNext_append (s1 s2 : List (Arrival × Pick))
    (it it1 fin : TestimoniumSubmitBlockHeaderIterator) (bs cs : List Bool)
    (h1 : runNext s1 it = some (bs, it1)) (h2 : runNext s2 it1 = some (cs, fin)) :
    runNext (s1 ++ s2) it = some (bs ++ cs, fin) := by
  induction s1 generalizing it bs with
  | nil =>
    simp only [runNext, Option.some.injEq, Prod.mk.injEq] at h1
    obtain ⟨rfl, rfl⟩ := h1
    simpa using h2
  | cons s rest ih =>
    obtain ⟨a, p⟩ := s
    simp only [List.cons_append, runNext] at h1 ⊢
    cases hn : (a.apply it).Next p with
    | none => simp [hn] at h1
    | some q =>
      obtain ⟨b, it2⟩ := q
      rw [hn] at h1
      simp only at h1 ⊢
      cases hr : runNext rest it2 with
      | none => simp [hr] at h1
      | some q2 =>
        obtain ⟨bs2, it3⟩ := q2
        rw [hr] at h1
        simp only [Option.some.injEq, Prod.mk.injEq] at h1
        obtain ⟨rfl, rfl⟩ := h1
        have h3 := ih it2 bs2 hr
        simp only [List.append_eq, h3, List.cons_append]

/-! ## Basic facts about the watch loop -/

/-- Iterations in which a decodable log arrives and the sink takes the event
extend `received` and `sink` and leave the loop running. -/
theorem watchLoop_delivered (c : BoundContract) (ls : List Log) (rest : List Wake)
    (st : WatchState) (hdec : ∀ l ∈ ls, (c.UnpackLog "SubmitBlockHeader" l).2 = none) :
    watchLoop c (ls.map delivered ++ rest) st =
      watchLoop c rest { st with received := st.received ++ ls,
                                 sink := st.sink ++ ls.map (decodedEvent c) } := by
  induction ls generalizing st with
  | nil => simp
  | cons l ls ih =>
    have h1 := hdec l (List.mem_cons_self l ls)
    have h2 : ∀ x ∈ ls, (c.UnpackLog "SubmitBlockHeader" x).2 = none :=
      fun x hx => hdec x (List.mem_cons_of_mem l hx)
    simp only [List.map_cons, List.cons_append, delivered, watchLoop, h1]
    have h3 := ih { st with received := st.received ++ [l],
                            sink := st.sink ++ [decodedEvent c l] } h2
    simp only [delivered] at h3
    rw [decodedEvent] at h3
    simp only [List.append_eq]
    rw [h3]
    simp [decodedEvent, List.append_assoc]

/-- Every schedule starts with iterations that deliver decodable logs to the
sink and then either ends or continues with an iteration of another kind. -/
theorem schedule_split (c : BoundContract) (sched : List Wake) :
    ∃ (ls : List Log) (rest : List Wake),
      (∀ l ∈ ls, (c.UnpackLog "SubmitBlockHeader" l).2 = none) ∧
      sched = ls.map delivered ++ rest ∧
      (rest = [] ∨ ∃ w post, rest = w :: post ∧
        ¬ ∃ l, w = delivered l ∧ (c.UnpackLog "SubmitBlockHeader" l).2 = none) := by
  induction sched with
  | nil => exact ⟨[], [], by simp, rfl, Or.inl rfl⟩
  | cons w ws ih =>
    by_cases hw : ∃ l, w = delivered l ∧ (c.UnpackLog "SubmitBlockHeader" l).2 = none
    · obtain ⟨l, rfl, hl⟩ := hw
      obtain ⟨ls, rest, h1, h2, h3⟩ := ih
      refine ⟨l :: ls, rest, ?_, by simp [h2], h3⟩
      intro x hx
      rcases List.mem_cons.1 hx with rfl | hx
      · exact hl
      · exact h1 x hx
    · exact ⟨[], w :: ws, by simp, rfl, Or.inr ⟨w, ws, rfl, hw⟩⟩

/-- The goroutine that `WatchSubmitBlockHeader` starts begins with nothing
received, nothing sent and no result. -/
theorem watch_initial (f : TestimoniumFilterer) (opts : WatchOpts) (st0 : WatchState)
    (e : Option Error) (hw : f.WatchSubmitBlockHeader opts = (some st0, e)) :
    st0.sink = [] ∧ st0.received = [] ∧ st0.result = none := by
  unfold TestimoniumFilterer.WatchSubmitBlockHeader at hw
  cases hq : f.contract.WatchLogs opts "SubmitBlockHeader" with
  | error e0 => simp [hq] at hw
  | ok q =>
    obtain ⟨logs, sub⟩ := q
    simp only [hq, Prod.mk.injEq, Option.some.injEq] at hw
    obtain ⟨rfl, _⟩ := hw
    exact ⟨rfl, rfl, rfl⟩

/-- What a running watch loop has received and sent after any schedule:
decodable logs `ls`, each sent to the sink as its decoded event, and then at
most one more log, for which nothing was sent; if that log failed to decode
with `e`, the loop has returned `e`. -/
theorem watchLoop_received (c : BoundContract) (sched : List Wake) (st : WatchState) :
    ∃ ls : List Log, (∀ l ∈ ls, (c.UnpackLog "SubmitBlockHeader" l).2 = none) ∧
      (watchLoop c sched st).sink = st.sink ++ ls.map (decodedEvent c) ∧
      ((watchLoop c sched st).received = st.received ++ ls ∨
        ∃ l, (watchLoop c sched st).received = st.received ++ (ls ++ [l]) ∧
          ((c.UnpackLog "SubmitBlockHeader" l).2 = none ∨
            ∃ e, (c.UnpackLog "SubmitBlockHeader" l).2 = some e ∧
              (watchLoop c sched st).result = some (some e))) := by
  obtain ⟨ls, rest, hdec, hs, hrest⟩ := schedule_split c sched
  refine ⟨ls, hdec, ?_⟩
  rw [hs, watchLoop_delivered c ls rest st hdec]
  rcases hrest with rfl | ⟨w, post, rfl, hw⟩
  · exact ⟨rfl, Or.inl rfl⟩
  · cases w with
    | log l d =>
      cases hl : (c.UnpackLog "SubmitBlockHeader" l).2 with
      | some e =>
        refine ⟨by simp [watchLoop, hl, WatchState.exit], Or.inr ⟨l, ?_, Or.inr ⟨e, hl, ?_⟩⟩⟩
        · simp [watchLoop, hl, WatchState.exit]
        · simp [watchLoop, hl, WatchState.exit]
      | none =>
        cases d with
        | sink => exact absurd ⟨l, rfl, hl⟩ hw
        | err e1 =>
          exact ⟨by simp [watchLoop, hl, WatchState.exit],
            Or.inr ⟨l, by simp [watchLoop, hl, WatchState.exit], Or.inl hl⟩⟩
        | quit =>
          exact ⟨by simp [watchLoop, hl, WatchState.exit],
            Or.inr ⟨l, by simp [watchLoop, hl, WatchState.exit], Or.inl hl⟩⟩
    | err e1 => exact ⟨by simp [watchLoop, WatchState.exit], Or.inl (by simp [watchLoop, WatchState.exit])⟩
    | quit => exact ⟨by simp [watchLoop, WatchState.exit], Or.inl (by simp [watchLoop, WatchState.exit])⟩

/-- The raw logs of decoded events are the logs they were decoded from. -/
theorem map_raw_decodedEvent (c : BoundContract) (ls : List Log) :
    (ls.map (decodedEvent c)).map (fun ev => ev.Raw) = ls := by
  induction ls with
  | nil => rfl
  | cons l ls ih => simp [decodedEvent] at ih ⊢; exact ih

/-! ## What a call of `Next` does to the log channel -/

/-- A ready receive keeps the closed flag; on an open channel it removes the
head of the buffer. -/
theorem Chan.recv_some {α : Type} [Inhabited α] (c rest : Chan α) (x : α)
    (h : c.recv = some (x, rest)) :
    rest.closed = c.closed ∧ (c.closed = false → c.buf = x :: rest.buf) := by
  cases c with
  | mk buf closed =>
    cases buf with
    | nil =>
      cases closed with
      | false => simp [Chan.recv] at h
      | true =>
        simp only [Chan.recv, if_true, Option.some.injEq, Prod.mk.injEq] at h
        obtain ⟨_, rfl⟩ := h
        exact ⟨rfl, fun h2 => by cases h2⟩
    | cons y ys =>
      simp only [Chan.recv, Option.some.injEq, Prod.mk.injEq] at h
      obtain ⟨rfl, rfl⟩ := h
      exact ⟨rfl, fun _ => rfl⟩

/-- The two outcomes of the log case: true with the event built from the
log and `fail` untouched, or false with an error recorded; the log channel
is not touched. -/
theorem caseLog_result (it it1 : TestimoniumSubmitBlockHeaderIterator) (log : Log) (b : Bool)
    (h : it.caseLog log = (b, it1)) :
    it1.logs = it.logs ∧ it1.done = it.done ∧ it1.sub = it.sub ∧
      ((b = true ∧ it1.fail = it.fail ∧
          it1.Event = some { TestimoniumSubmitBlockHeader.new.unpacked
                               (it.contract.UnpackLog it.event log).1 with Raw := log }) ∨
        (b = false ∧ it1.fail.isSome = true)) := by
  cases hd : (it.contract.UnpackLog it.event log).2 with
  | none =>
    rw [caseLog_ok it log hd] at h
    simp only [Prod.mk.injEq] at h
    obtain ⟨rfl, rfl⟩ := h
    exact ⟨rfl, rfl, rfl, Or.inl ⟨rfl, rfl, rfl⟩⟩
  | some e =>
    rw [caseLog_err it log e hd] at h
    simp only [Prod.mk.injEq] at h
    obtain ⟨rfl, rfl⟩ := h
    exact ⟨rfl, rfl, rfl, Or.inr ⟨rfl, rfl⟩⟩

/-- How the select of an iterator in progress is resolved: it takes the log
case (a record is ready and the pick is the log case or the error channel
is not ready), or the error case (a value is ready in the error channel and
the pick is the error case or the log channel is not ready), or neither
channel is ready. -/
theorem select_resolution (pick : Pick) (it : TestimoniumSubmitBlockHeaderIterator) :
    (∃ log rest, it.logs.recv = some (log, rest) ∧
        (pick = Pick.logs ∨ it.sub.Err.recv = none)) ∨
      (∃ err erest, it.sub.Err.recv = some (err, erest) ∧
        (pick = Pick.err ∨ it.logs.recv = none)) ∨
      (it.logs.recv = none ∧ it.sub.Err.recv = none) := by
  cases hl : it.logs.recv with
  | none =>
    cases he : it.sub.Err.recv with
    | none => exact Or.inr (Or.inr ⟨rfl, rfl⟩)
    | some q => exact Or.inr (Or.inl ⟨q.1, q.2, rfl, Or.inr rfl⟩)
  | some q =>
    cases he : it.sub.Err.recv with
    | none => exact Or.inl ⟨q.1, q.2, rfl, Or.inr rfl⟩
    | some q2 =>
      cases pick with
      | logs => exact Or.inl ⟨q.1, q.2, rfl, Or.inl rfl⟩
      | err => exact Or.inr (Or.inl ⟨q2.1, q2.2, rfl, Or.inl rfl⟩)

/-- The outcome of `Next` on an iterator that is failed or done: no
waiting, no change of `done`, and either true with the head of the log
channel exposed, or false with an error recorded, or false with the log
channel not ready and nothing changed. -/
theorem Next_settled_result (pick : Pick) (it it1 : TestimoniumSubmitBlockHeaderIterator)
    (b : Bool) (hs : it.fail.isSome = true ∨ it.done = true)
    (h : it.Next pick = some (b, it1)) :
    it1.logs.closed = it.logs.closed ∧ it1.done = it.done ∧
      (∀ e, it.fail = some e → it1.fail = some e) ∧
      ((b = true ∧ it1.fail = none ∧ ∃ log rest, it.logs.recv = some (log, rest) ∧
          it1.logs = rest ∧
          it1.Event = some { TestimoniumSubmitBlockHeader.new.unpacked
                               (it.contract.UnpackLog it.event log).1 with Raw := log }) ∨
        (b = false ∧ (it1.fail.isSome = true ∨
          (it1.fail = none ∧ it1.logs = it.logs ∧ it.logs.recv = none)))) := by
  by_cases hf : it.fail.isSome = true
  · rw [Next_of_fail pick it hf] at h
    simp only [Option.some.injEq, Prod.mk.injEq] at h
    obtain ⟨rfl, rfl⟩ := h
    exact ⟨rfl, rfl, fun e he => he, Or.inr ⟨rfl, Or.inl hf⟩⟩
  · have hf0 : it.fail = none := by
      cases hx : it.fail with
      | none => rfl
      | some e => rw [hx] at hf; exact absurd rfl hf
    have hd : it.done = true := by
      rcases hs with hs | hs
      · exact absurd hs hf
      · exact hs
    rw [Next_of_done pick it hf0 hd] at h
    cases hl : it.logs.recv with
    | none =>
      rw [hl] at h
      simp only [Option.some.injEq, Prod.mk.injEq] at h
      obtain ⟨rfl, rfl⟩ := h
      exact ⟨rfl, rfl, fun e he => he, Or.inr ⟨rfl, Or.inr ⟨hf0, rfl, rfl⟩⟩⟩
    | some q =>
      obtain ⟨log, rest⟩ := q
      rw [hl] at h
      simp only [Option.some.injEq] at h
      obtain ⟨h1, h2, _, h4⟩ := caseLog_result { it with logs := rest } it1 log b h
      obtain ⟨hc, _⟩ := Chan.recv_some it.logs rest log hl
      have hnofail : ∀ e, it.fail = some e → it1.fail = some e := by
        intro e he
        rw [hf0] at he
        cases he
      refine ⟨(congrArg Chan.closed h1).trans hc, h2, hnofail, ?_⟩
      rcases h4 with ⟨hb, hfl, hE⟩ | ⟨hb, hfl⟩
      · exact Or.inl ⟨hb, hfl.trans hf0, log, rest, rfl, h1, hE⟩
      · exact Or.inr ⟨hb, Or.inl hfl⟩

/-- The outcome of any call of `Next` that returns: `done` and a recorded
error are kept; the result is true with the head of the log channel removed
and exposed and no error recorded, or false with an error recorded, or
false with the iterator done, the log channel not ready and unchanged. -/
theorem Next_result (pick : Pick) (it it1 : TestimoniumSubmitBlockHeaderIterator)
    (b : Bool) (h : it.Next pick = some (b, it1)) :
    it1.logs.closed = it.logs.closed ∧ (it.done = true → it1.done = true) ∧
      (∀ e, it.fail = some e → it1.fail = some e) ∧
      ((b = true ∧ it1.fail = none ∧ ∃ log rest, it.logs.recv = some (log, rest) ∧
          it1.logs = rest ∧
          it1.Event = some { TestimoniumSubmitBlockHeader.new.unpacked
                               (it.contract.UnpackLog it.event log).1 with Raw := log }) ∨
        (b = false ∧ (it1.fail.isSome = true ∨
          (it1.fail = none ∧ it1.done = true ∧ it1.logs = it.logs ∧
            it.logs.recv = none)))) := by
  by_cases hs : it.fail.isSome = true ∨ it.done = true
  · obtain ⟨h1, h2, h3, h4⟩ := Next_settled_result pick it it1 b hs h
    refine ⟨h1, fun hd => h2.trans hd, h3, ?_⟩
    rcases h4 with h4 | ⟨hb, h4 | ⟨h5, h6, h7⟩⟩
    · exact Or.inl h4
    · exact Or.inr ⟨hb, Or.inl h4⟩
    · have hd : it.done = true := by
        rcases hs with hs | hs
        · rw [← Option.not_isSome_iff_eq_none] at h5
          have := h3
          cases hx : it.fail with
          | none => rw [hx] at hs; cases hs
          | some e => rw [h3 e hx] at h5; exact absurd rfl h5
        · exact hs
      exact Or.inr ⟨hb, Or.inr ⟨h5, h2.trans hd, h6, h7⟩⟩
  · have hf0 : it.fail = none := by
      cases hx : it.fail with
      | none => rfl
      | some e => exact absurd (Or.inl (by rw [hx]; rfl)) hs
    have hd0 : it.done = false := by
      cases hx : it.done with
      | false => rfl
      | true => exact absurd (Or.inr hx) hs
    rcases select_resolution pick it with ⟨log, rest, hl, hp⟩ | ⟨err, erest, he, hp⟩ | ⟨hl, he⟩
    · rw [Next_takes_log pick it hf0 hd0 log rest hl hp] at h
      simp only [Option.some.injEq] at h
      obtain ⟨h1, _, _, h4⟩ := caseLog_result { it with logs := rest } it1 log b h
      obtain ⟨hc, _⟩ := Chan.recv_some it.logs rest log hl
      have hnodone : it.done = true → it1.done = true := by
        intro hd
        rw [hd0] at hd
        cases hd
      have hnofail : ∀ e, it.fail = some e → it1.fail = some e := by
        intro e he
        rw [hf0] at he
        cases he
      refine ⟨(congrArg Chan.closed h1).trans hc, hnodone, hnofail, ?_⟩
      rcases h4 with ⟨hb, hfl, hE⟩ | ⟨hb, hfl⟩
      · exact Or.inl ⟨hb, hfl.trans hf0, log, rest, hl, h1, hE⟩
      · exact Or.inr ⟨hb, Or.inl hfl⟩
    · rw [Next_takes_err pick it hf0 hd0 err erest he hp] at h
      obtain ⟨h1, h2, _, h4⟩ :=
        Next_settled_result pick (afterErr it err erest) it1 b (Or.inr rfl) h
      have hnofail : ∀ e, it.fail = some e → it1.fail = some e := by
        intro e he2
        rw [hf0] at he2
        cases he2
      refine ⟨h1, fun _ => h2, hnofail, ?_⟩
      rcases h4 with h4 | ⟨hb, h4 | ⟨h5, h6, h7⟩⟩
      · exact Or.inl h4
      · exact Or.inr ⟨hb, Or.inl h4⟩
      · exact Or.inr ⟨hb, Or.inr ⟨h5, h2, h6, h7⟩⟩
    · rw [Next_waits pick it hf0 hd0 hl he] at h
      cases h

/-- After an error is recorded no call exposes anything. -/
theorem runRaws_of_fail (steps : List (Arrival × Pick))
    (it : TestimoniumSubmitBlockHeaderIterator) (h : it.fail.isSome = true) :
    ∃ fin, runRaws steps it = some ([], fin) := by
  induction steps generalizing it with
  | nil => exact ⟨it, rfl⟩
  | cons s rest ih =>
    obtain ⟨a, p⟩ := s
    obtain ⟨hf, _, _⟩ := Arrival.apply_frame a it
    have h1 : (a.apply it).fail.isSome = true := by rw [hf]; exact h
    obtain ⟨fin, hrun⟩ := ih (a.apply it) h1
    exact ⟨fin, by simp [runRaws, Next_of_fail p _ h1, hrun, exposedRaw]⟩

/-- Arrivals on an open log channel append to its buffer and keep it open. -/
theorem Arrival.apply_logs_open (a : Arrival) (it : TestimoniumSubmitBlockHeaderIterator)
    (h : it.logs.closed = false) :
    (a.apply it).logs.buf = it.logs.buf ++ a.logs ∧ (a.apply it).logs.closed = false := by
  simp [Arrival.apply, Chan.push, h]

/-- The `Raw` values exposed during a run on an open log channel are, in
order, a prefix of what the channel held at the start followed by what
arrived during the run. -/
theorem runRaws_prefix (steps : List (Arrival × Pick)) :
    ∀ (it fin : TestimoniumSubmitBlockHeaderIterator) (raws : List Log),
      it.logs.closed = false → runRaws steps it = some (raws, fin) →
      raws <+: it.logs.buf ++ arrivedLogs steps := by
  induction steps with
  | nil =>
    intro it fin raws _ hrun
    simp only [runRaws, Option.some.injEq, Prod.mk.injEq] at hrun
    rw [← hrun.1]
    exact List.nil_prefix
  | cons s rest ih =>
    intro it fin raws hopen hrun
    obtain ⟨a, p⟩ := s
    obtain ⟨hbuf, hopen1⟩ := Arrival.apply_logs_open a it hopen
    simp only [runRaws] at hrun
    cases hn : (a.apply it).Next p with
    | none => simp [hn] at hrun
    | some q =>
      obtain ⟨b, it1⟩ := q
      rw [hn] at hrun
      simp only at hrun
      cases hr : runRaws rest it1 with
      | none => simp [hr] at hrun
      | some q2 =>
        obtain ⟨raws1, fin1⟩ := q2
        rw [hr] at hrun
        simp only [Option.some.injEq, Prod.mk.injEq] at hrun
        obtain ⟨hraws, _⟩ := hrun
        obtain ⟨hc, _, _, hout⟩ := Next_result p (a.apply it) it1 b hn
        have hopen2 : it1.logs.closed = false := hc.trans hopen1
        have hih := ih it1 fin1 raws1 hopen2 hr
        simp only [arrivedLogs]
        rw [← hraws, ← List.append_assoc, ← hbuf]
        rcases hout with ⟨hb, _, log, rest1, hl, hlogs, hE⟩ | ⟨hb, hfail | ⟨_, _, hlogs, _⟩⟩
        · obtain ⟨_, hhead⟩ := Chan.recv_some (a.apply it).logs rest1 log hl
          have hx : exposedRaw b it1 = [log] := by simp [exposedRaw, hb, hE]
          rw [hx, hhead hopen1, ← hlogs]
          exact (List.prefix_append_right_inj [log]).2 hih
        · obtain ⟨fin2, hr2⟩ := runRaws_of_fail rest it1 hfail
          rw [hr2] at hr
          simp only [Option.some.injEq, Prod.mk.injEq] at hr
          rw [← hr.1, hb]
          simp [exposedRaw]
        · rw [hb, ← hlogs]
          simpa [exposedRaw] using hih

/-! ## A call of `Next` that waits -/

/-- A receive is not ready exactly on an open channel with nothing
buffered. -/
theorem Chan.recv_eq_none {α : Type} [Inhabited α] (c : Chan α) :
    c.recv = none ↔ c = { buf := [], closed := false } := by
  cases c with
  | mk buf closed =>
    cases buf with
    | nil => cases closed <;> simp [Chan.recv]
    | cons x xs => simp [Chan.recv]

/-- Sending nothing leaves a channel as it is. -/
theorem Chan.push_nil {α : Type} (c : Chan α) : c.push [] = c := by
  cases c with
  | mk buf closed => cases closed <;> simp [Chan.push]

/-! ## Sequences of calls -/

/-- Over any sequence of calls and arrivals `done` stays true and a recorded
error stays the same. -/
theorem runOps_monotone (ops : List Op) :
    ∀ (it fin : TestimoniumSubmitBlockHeaderIterator) (results : List Bool),
      runOps ops it = some (results, fin) →
      (it.done = true → fin.done = true) ∧ (∀ e, it.fail = some e → fin.fail = some e) := by
  induction ops with
  | nil =>
    intro it fin results h
    simp only [runOps, Option.some.injEq, Prod.mk.injEq] at h
    obtain ⟨_, rfl⟩ := h
    exact ⟨fun hd => hd, fun e he => he⟩
  | cons op rest ih =>
    intro it fin results h
    cases op with
    | next p =>
      simp only [runOps] at h
      cases hn : it.Next p with
      | none => simp [hn] at h
      | some q =>
        obtain ⟨b, it1⟩ := q
        rw [hn] at h
        simp only at h
        cases hr : runOps rest it1 with
        | none => simp [hr] at h
        | some q2 =>
          obtain ⟨bs, fin1⟩ := q2
          rw [hr] at h
          simp only [Option.some.injEq, Prod.mk.injEq] at h
          obtain ⟨_, rfl⟩ := h
          obtain ⟨_, hd1, hf1, _⟩ := Next_result p it it1 b hn
          obtain ⟨hd2, hf2⟩ := ih it1 fin1 bs hr
          exact ⟨fun hd => hd2 (hd1 hd), fun e he => hf2 e (hf1 e he)⟩
    | error => exact ih it fin results h
    | close => exact ih it.Close.2 fin results h
    | arrive a => exact ih (a.apply it) fin results h

/-- On an iterator that is failed, or done with the log channel not ready,
`Next` returns false and changes nothing. -/
theorem Next_exhausted (pick : Pick) (it : TestimoniumSubmitBlockHeaderIterator)
    (h : it.fail.isSome = true ∨ (it.done = true ∧ it.logs.recv = none)) :
    it.Next pick = some (false, it) := by
  by_cases hf : it.fail.isSome = true
  · exact Next_of_fail pick it hf
  · have hf0 : it.fail = none := by
      cases hx : it.fail with
      | none => rfl
      | some e => rw [hx] at hf; exact absurd rfl hf
    rcases h with h | ⟨hd, hl⟩
    · exact absurd h hf
    · rw [Next_of_done pick it hf0 hd, hl]

/-- Once the iterator is failed, or done with the log channel not ready, no
sequence of calls waits and every call of `Next` in it returns false,
provided that, unless the iterator is failed, no further record arrives. -/
theorem runOps_exhausted (ops : List Op) :
    ∀ it : TestimoniumSubmitBlockHeaderIterator,
      (it.fail.isSome = true ∨
        (it.done = true ∧ it.logs.recv = none ∧ ∀ a, Op.arrive a ∈ ops → a.logs = [])) →
      ∃ results fin, runOps ops it = some (results, fin) ∧ ∀ b ∈ results, b = false := by
  induction ops with
  | nil =>
    intro it _
    exact ⟨[], it, rfl, by simp⟩
  | cons op rest ih =>
    intro it h
    have hrest : ∀ it1 : TestimoniumSubmitBlockHeaderIterator,
        it1.fail = it.fail → it1.done = it.done → it1.logs = it.logs →
        ∃ results fin, runOps rest it1 = some (results, fin) ∧ ∀ b ∈ results, b = false := by
      intro it1 h1 h2 h3
      apply ih
      rcases h with h | ⟨hd, hl, ha⟩
      · exact Or.inl (by rw [h1]; exact h)
      · exact Or.inr ⟨h2.trans hd, by rw [h3]; exact hl,
          fun a hmem => ha a (List.mem_cons_of_mem _ hmem)⟩
    cases op with
    | next p =>
      have hn : it.Next p = some (false, it) := by
        apply Next_exhausted
        rcases h with h | ⟨hd, hl, _⟩
        · exact Or.inl h
        · exact Or.inr ⟨hd, hl⟩
      obtain ⟨results, fin, hr, hall⟩ := hrest it rfl rfl rfl
      refine ⟨false :: results, fin, by simp [runOps, hn, hr], ?_⟩
      intro b hb
      rcases List.mem_cons.1 hb with rfl | hb
      · rfl
      · exact hall b hb
    | error =>
      obtain ⟨results, fin, hr, hall⟩ := hrest it rfl rfl rfl
      exact ⟨results, fin, by simp [runOps, hr], hall⟩
    | close =>
      obtain ⟨results, fin, hr, hall⟩ := hrest it.Close.2 rfl rfl rfl
      exact ⟨results, fin, by simp [runOps, hr], hall⟩
    | arrive a =>
      have hlogs : it.fail.isSome = true ∨ (a.apply it).logs = it.logs := by
        rcases h with h | ⟨_, _, ha⟩
        · exact Or.inl h
        · have h0 := ha a (List.mem_cons_self _ _)
          exact Or.inr (by simp [Arrival.apply, h0, Chan.push_nil])
      rcases hlogs with hfail | hlogs
      · obtain ⟨results, fin, hr, hall⟩ := ih (a.apply it) (Or.inl hfail)
        exact ⟨results, fin, by simp [runOps, hr], hall⟩
      · obtain ⟨results, fin, hr, hall⟩ := hrest (a.apply it) rfl rfl hlogs
        exact ⟨results, fin, by simp [runOps, hr], hall⟩

/-! ## Counting the re-invocations of `Next` -/

/-- On a failed or done iterator the counting `Next` returns what `Next`
returns and invokes `Next` no further. -/
theorem NextCounting_settled (pick : Pick) (it : TestimoniumSubmitBlockHeaderIterator)
    (hs : it.fail.isSome = true ∨ it.done = true) :
    ∃ r, it.Next pick = some r ∧ it.NextCounting pick = some (0, r) := by
  by_cases hf : it.fail.isSome = true
  · refine ⟨(false, it), Next_of_fail pick it hf, ?_⟩
    rw [TestimoniumSubmitBlockHeaderIterator.NextCounting]
    simp [hf]
  · have hf0 : it.fail = none := by
      cases hx : it.fail with
      | none => rfl
      | some e => rw [hx] at hf; exact absurd rfl hf
    have hd : it.done = true := by
      rcases hs with hs | hs
      · exact absurd hs hf
      · exact hs
    rw [Next_of_done pick it hf0 hd, TestimoniumSubmitBlockHeaderIterator.NextCounting]
    cases hl : it.logs.recv with
    | none => exact ⟨(false, it), rfl, by simp [hf0, hd]⟩
    | some q => exact ⟨{ it with logs := q.2 }.caseLog q.1, rfl, by simp [hf0, hd]⟩

/-- The counting `Next` when the select takes the log case. -/
theorem NextCounting_takes_log (pick : Pick) (it : TestimoniumSubmitBlockHeaderIterator)
    (hf : it.fail = none) (hd : it.done = false) (log : Log) (rest : Chan Log)
    (hl : it.logs.recv = some (log, rest))
    (hp : pick = Pick.logs ∨ it.sub.Err.recv = none) :
    it.NextCounting pick = some (0, { it with logs := rest }.caseLog log) := by
  rw [TestimoniumSubmitBlockHeaderIterator.NextCounting]
  simp only [hf, hd, hl]
  rcases hp with hp | hp
  · subst hp
    cases he : it.sub.Err.recv with
    | none => simp
    | some q => obtain ⟨e, r⟩ := q; simp
  · simp [hp]

/-- The counting `Next` when the select takes the error case: one more
invocation than the invoked call makes. -/
theorem NextCounting_takes_err (pick : Pick) (it : TestimoniumSubmitBlockHeaderIterator)
    (hf : it.fail = none) (hd : it.done = false) (err : Option Error)
    (erest : Chan (Option Error)) (he : it.sub.Err.recv = some (err, erest))
    (hp : pick = Pick.err ∨ it.logs.recv = none) :
    it.NextCounting pick =
      match (afterErr it err erest).NextCounting pick with
      | none => none
      | some (n, r) => some (n + 1, r) := by
  rw [TestimoniumSubmitBlockHeaderIterator.NextCounting]
  simp only [hf, hd, he]
  rcases hp with hp | hp
  · subst hp
    cases hl : it.logs.recv with
    | none => simp [afterErr]
    | some q => obtain ⟨l, r⟩ := q; simp [afterErr]
  · simp [hp, afterErr]

/-- The counting `Next` when neither channel is ready. -/
theorem NextCounting_waits (pick : Pick) (it : TestimoniumSubmitBlockHeaderIterator)
    (hf : it.fail = none) (hd : it.done = false)
    (hl : it.logs.recv = none) (he : it.sub.Err.recv = none) :
    it.NextCounting pick = none := by
  rw [TestimoniumSubmitBlockHeaderIterator.NextCounting]
  simp [hf, hd, hl, he]

/-- Whether the select of `Next` is reached and takes the error case. -/
theorem errorCase_excludes (pick : Pick) (it : TestimoniumSubmitBlockHeaderIterator)
    (log : Log) (rest : Chan Log) (hl : it.logs.recv = some (log, rest))
    (hp : pick = Pick.logs ∨ it.sub.Err.recv = none) :
    ¬ ∃ err erest, it.sub.Err.recv = some (err, erest) ∧
      (pick = Pick.err ∨ it.logs.recv = none) := by
  rintro ⟨err, erest, he, hq⟩
  rcases hp with hp | hp
  · rcases hq with hq | hq
    · rw [hp] at hq; cases hq
    · rw [hl] at hq; cases hq
  · rw [hp] at he; cases he

/-- The four ways a call of `Next` goes, with the number of re-invocations:
on a failed or done iterator it returns without one; in progress it returns
from the log case without one, or takes the error case and returns what the
one re-invoked call returns, or waits. -/
theorem NextCounting_cases (pick : Pick) (it : TestimoniumSubmitBlockHeaderIterator) :
    ((it.fail.isSome = true ∨ it.done = true) ∧
        ∃ r, it.Next pick = some r ∧ it.NextCounting pick = some (0, r)) ∨
      ((it.fail = none ∧ it.done = false) ∧
        ((∃ r, it.Next pick = some r ∧ it.NextCounting pick = some (0, r) ∧
            ¬ ∃ err erest, it.sub.Err.recv = some (err, erest) ∧
              (pick = Pick.err ∨ it.logs.recv = none)) ∨
          (∃ r, it.Next pick = some r ∧ it.NextCounting pick = some (1, r) ∧
            ∃ err erest, it.sub.Err.recv = some (err, erest) ∧
              (pick = Pick.err ∨ it.logs.recv = none)) ∨
          (it.Next pick = none ∧ it.NextCounting pick = none ∧
            it.logs.recv = none ∧ it.sub.Err.recv = none))) := by
  by_cases hs : it.fail.isSome = true ∨ it.done = true
  · exact Or.inl ⟨hs, NextCounting_settled pick it hs⟩
  · have hf0 : it.fail = none := by
      cases hx : it.fail with
      | none => rfl
      | some e => exact absurd (Or.inl (by rw [hx]; rfl)) hs
    have hd0 : it.done = false := by
      cases hx : it.done with
      | false => rfl
      | true => exact absurd (Or.inr hx) hs
    refine Or.inr ⟨⟨hf0, hd0⟩, ?_⟩
    rcases select_resolution pick it with ⟨log, rest, hl, hp⟩ | ⟨err, erest, he, hp⟩ | ⟨hl, he⟩
    · exact Or.inl ⟨_, Next_takes_log pick it hf0 hd0 log rest hl hp,
        NextCounting_takes_log pick it hf0 hd0 log rest hl hp,
        errorCase_excludes pick it log rest hl hp⟩
    · obtain ⟨r, h1, h2⟩ := NextCounting_settled pick (afterErr it err erest) (Or.inr rfl)
      refine Or.inr (Or.inl ⟨r, ?_, ?_, err, erest, he, hp⟩)
      · rw [Next_takes_err pick it hf0 hd0 err erest he hp, h1]
      · rw [NextCounting_takes_err pick it hf0 hd0 err erest he hp, h2]
    · exact Or.inr (Or.inr ⟨Next_waits pick it hf0 hd0 hl he,
        NextCounting_waits pick it hf0 hd0 hl he, hl, he⟩)

/-! ## The subscription of the watch loop -/

/-- An invocation of `Unsubscribe` is counted and leaves the subscription
released. -/
theorem Subscription.Unsubscribe_counts (s : Subscription) :
    s.Unsubscribe.unsubscribeCalls = s.unsubscribeCalls + 1 ∧
      s.Unsubscribe.unsubscribed = true := by
  cases hu : s.unsubscribed <;> simp [Subscription.Unsubscribe, hu]

/-- A running watch loop either is still running with its subscription
untouched, or has returned with `Unsubscribe` invoked once on it. -/
theorem watchLoop_sub (c : BoundContract) (sched : List Wake) (st : WatchState)
    (h0 : st.result = none) :
    ((watchLoop c sched st).result = none ∧ (watchLoop c sched st).sub = st.sub) ∨
      (∃ r, (watchLoop c sched st).result = some r ∧
        (watchLoop c sched st).sub = st.sub.Unsubscribe) := by
  obtain ⟨ls, rest, hdec, hs, hrest⟩ := schedule_split c sched
  rw [hs, watchLoop_delivered c ls rest st hdec]
  rcases hrest with rfl | ⟨w, post, rfl, hw⟩
  · exact Or.inl ⟨h0, rfl⟩
  · right
    cases w with
    | log l d =>
      cases hl : (c.UnpackLog "SubmitBlockHeader" l).2 with
      | some e => exact ⟨some e, by simp [watchLoop, hl, WatchState.exit]⟩
      | none =>
        cases d with
        | sink => exact absurd ⟨l, rfl, hl⟩ hw
        | err e1 => exact ⟨e1, by simp [watchLoop, hl, WatchState.exit]⟩
        | quit => exact ⟨none, by simp [watchLoop, hl, WatchState.exit]⟩
    | err e1 => exact ⟨e1, by simp [watchLoop, WatchState.exit]⟩
    | quit => exact ⟨none, by simp [watchLoop, WatchState.exit]⟩

/-! ## `Next` on the heap -/

/-- A write through the pointer returned by the last allocation changes the
last cell only. -/
theorem Heap.update_last (cells : List TestimoniumSubmitBlockHeader)
    (v : TestimoniumSubmitBlockHeader)
    (f : TestimoniumSubmitBlockHeader → TestimoniumSubmitBlockHeader) :
    Heap.update { cells := cells ++ [v] } cells.length f = { cells := cells ++ [f v] } := by
  simp [Heap.update]

/-- The log case on the heap when the record decodes: one new cell, holding
the unpacked fields and the log, and `Event` points to it. -/
theorem refCaseLog_ok (heap : Heap) (it : IteratorRef) (log : Log)
    (h : (it.contract.UnpackLog it.event log).2 = none) :
    IteratorRef.caseLog heap it log =
      (true,
        { cells := heap.cells ++
            [{ Hash := (it.contract.UnpackLog it.event log).1.Hash,
               HashWithoutNonce := (it.contract.UnpackLog it.event log).1.HashWithoutNonce,
               Nonce := (it.contract.UnpackLog it.event log).1.Nonce,
               Parent := (it.contract.UnpackLog it.event log).1.Parent,
               Raw := log }] },
        { it with Event := some heap.cells.length }) := by
  simp only [IteratorRef.caseLog, Heap.alloc, h, Heap.update_last]

/-- The log case on the heap when the record does not decode: one new cell,
whose `Raw` stays zero, and the error is recorded. -/
theorem refCaseLog_err (heap : Heap) (it : IteratorRef) (log : Log) (e : Error)
    (h : (it.contract.UnpackLog it.event log).2 = some e) :
    IteratorRef.caseLog heap it log =
      (false,
        { cells := heap.cells ++
            [{ Hash := (it.contract.UnpackLog it.event log).1.Hash,
               HashWithoutNonce := (it.contract.UnpackLog it.event log).1.HashWithoutNonce,
               Nonce := (it.contract.UnpackLog it.event log).1.Nonce,
               Parent := (it.contract.UnpackLog it.event log).1.Parent,
               Raw := Log.zero }] },
        { it with Event := some heap.cells.length, fail := some e }) := by
  simp only [IteratorRef.caseLog, Heap.alloc, h, Heap.update_last]
  rfl

/-- Reading the cell that the last allocation returned. -/
theorem Heap.read_last (cells : List TestimoniumSubmitBlockHeader)
    (v : TestimoniumSubmitBlockHeader) :
    Heap.read { cells := cells ++ [v] } cells.length = some v := by
  simp [Heap.read]

/-- The log case on the heap, seen by the caller, is the log case of
`Next`. -/
theorem refCaseLog_view (heap : Heap) (it : IteratorRef) (log : Log) :
    ((IteratorRef.caseLog heap it log).1,
        (IteratorRef.caseLog heap it log).2.2.view (IteratorRef.caseLog heap it log).2.1) =
      (it.view heap).caseLog log := by
  cases hd : (it.contract.UnpackLog it.event log).2 with
  | none =>
    rw [refCaseLog_ok heap it log hd, Testimonium.caseLog_ok (it.view heap) log hd]
    simp only [IteratorRef.view, Option.bind, Heap.read_last]
    rfl
  | some e =>
    rw [refCaseLog_err heap it log e hd,
      Testimonium.caseLog_err (it.view heap) log e hd]
    simp only [IteratorRef.view, Option.bind, Heap.read_last]
    rfl

/-- `Next` on the heap, on a failed iterator. -/
theorem refNext_of_fail (pick : Pick) (heap : Heap) (it : IteratorRef)
    (h : it.fail.isSome = true) : it.Next pick heap = some (false, heap, it) := by
  rw [IteratorRef.Next]
  simp [h]

/-- `Next` on the heap, on a completed iterator without error. -/
theorem refNext_of_done (pick : Pick) (heap : Heap) (it : IteratorRef)
    (hf : it.fail = none) (hd : it.done = true) :
    it.Next pick heap =
      match it.logs.recv with
      | some (log, rest) => some (IteratorRef.caseLog heap { it with logs := rest } log)
      | none => some (false, heap, it) := by
  rw [IteratorRef.Next]
  simp [hf, hd]

/-- `Next` on the heap when the select takes the log case. -/
theorem refNext_takes_log (pick : Pick) (heap : Heap) (it : IteratorRef)
    (hf : it.fail = none) (hd : it.done = false) (log : Log) (rest : Chan Log)
    (hl : it.logs.recv = some (log, rest))
    (hp : pick = Pick.logs ∨ it.sub.Err.recv = none) :
    it.Next pick heap = some (IteratorRef.caseLog heap { it with logs := rest } log) := by
  rw [IteratorRef.Next]
  simp only [hf, hd, hl]
  rcases hp with hp | hp
  · subst hp
    cases he : it.sub.Err.recv with
    | none => simp
    | some q => obtain ⟨e, r⟩ := q; simp
  · simp [hp]

/-- `Next` on the heap when the select takes the error case. -/
theorem refNext_takes_err (pick : Pick) (heap : Heap) (it : IteratorRef)
    (hf : it.fail = none) (hd : it.done = false) (err : Option Error)
    (erest : Chan (Option Error)) (he : it.sub.Err.recv = some (err, erest))
    (hp : pick = Pick.err ∨ it.logs.recv = none) :
    it.Next pick heap = (it.afterErr err erest).Next pick heap := by
  rw [IteratorRef.Next]
  simp only [hf, hd, he]
  rcases hp with hp | hp
  · subst hp
    cases hl : it.logs.recv with
    | none => simp [IteratorRef.afterErr]
    | some q => obtain ⟨l, r⟩ := q; simp [IteratorRef.afterErr]
  · simp [hp, IteratorRef.afterErr]

/-- `Next` on the heap when neither channel is ready. -/
theorem refNext_waits (pick : Pick) (heap : Heap) (it : IteratorRef)
    (hf : it.fail = none) (hd : it.done = false)
    (hl : it.logs.recv = none) (he : it.sub.Err.recv = none) :
    it.Next pick heap = none := by
  rw [IteratorRef.Next]
  simp [hf, hd, hl, he]

/-- A log case on the heap that returns true has allocated exactly one cell,
holding the unpacked fields and the log, with `Event` pointing to it, and
has recorded no error. -/
theorem refCaseLog_true (heap heap1 : Heap) (it it1 : IteratorRef) (log : Log)
    (h : IteratorRef.caseLog heap it log = (true, heap1, it1)) :
    it1 = { it with Event := some heap.cells.length } ∧
      heap1.cells = heap.cells ++
        [{ Hash := (it.contract.UnpackLog it.event log).1.Hash,
           HashWithoutNonce := (it.contract.UnpackLog it.event log).1.HashWithoutNonce,
           Nonce := (it.contract.UnpackLog it.event log).1.Nonce,
           Parent := (it.contract.UnpackLog it.event log).1.Parent,
           Raw := log }] := by
  cases hd : (it.contract.UnpackLog it.event log).2 with
  | none =>
    rw [refCaseLog_ok heap it log hd] at h
    simp only [Prod.mk.injEq, true_and] at h
    obtain ⟨h1, h2⟩ := h
    rw [← h1, ← h2]
    exact ⟨rfl, rfl⟩
  | some e =>
    rw [refCaseLog_err heap it log e hd] at h
    simp at h

/-- What a returning call of `Next` on the heap does, on a failed or done
iterator: the caller sees what `Next` returns, and a true result comes with
one newly allocated cell for the head of the log channel. -/
theorem refNext_settled_result (pick : Pick) (heap heap1 : Heap)
    (it it1 : IteratorRef) (b : Bool) (hs : it.fail.isSome = true ∨ it.done = true)
    (h : it.Next pick heap = some (b, heap1, it1)) :
    (it.view heap).Next pick = some (b, it1.view heap1) ∧
      (b = true → ∃ log rest, it.logs.recv = some (log, rest) ∧ it1.logs = rest ∧
        it1.fail = none ∧ it1.Event = some heap.cells.length ∧
        heap1.cells = heap.cells ++
          [{ Hash := (it.contract.UnpackLog it.event log).1.Hash,
             HashWithoutNonce := (it.contract.UnpackLog it.event log).1.HashWithoutNonce,
             Nonce := (it.contract.UnpackLog it.event log).1.Nonce,
             Parent := (it.contract.UnpackLog it.event log).1.Parent,
             Raw := log }]) := by
  by_cases hf : it.fail.isSome = true
  · rw [refNext_of_fail pick heap it hf] at h
    simp only [Option.some.injEq, Prod.mk.injEq] at h
    obtain ⟨rfl, rfl, rfl⟩ := h
    exact ⟨Testimonium.Next_of_fail pick (it.view heap) hf, fun hb => by cases hb⟩
  · have hf0 : it.fail = none := by
      cases hx : it.fail with
      | none => rfl
      | some e => rw [hx] at hf; exact absurd rfl hf
    have hd : it.done = true := by
      rcases hs with hs | hs
      · exact absurd hs hf
      · exact hs
    rw [refNext_of_done pick heap it hf0 hd] at h
    rw [Testimonium.Next_of_done pick (it.view heap) hf0 hd]
    have hrecv : (it.view heap).logs.recv = it.logs.recv := rfl
    rw [hrecv]
    cases hl : it.logs.recv with
    | none =>
      rw [hl] at h
      simp only [Option.some.injEq, Prod.mk.injEq] at h
      obtain ⟨rfl, rfl, rfl⟩ := h
      exact ⟨rfl, fun hb => by cases hb⟩
    | some q =>
      obtain ⟨log, rest⟩ := q
      rw [hl] at h
      simp only [Option.some.injEq] at h
      have hv := refCaseLog_view heap { it with logs := rest } log
      rw [h] at hv
      refine ⟨?_, fun hb => ?_⟩
      · simp only
        exact congrArg some hv.symm
      · subst hb
        obtain ⟨h1, h2⟩ := refCaseLog_true heap heap1 { it with logs := rest } it1 log h
        exact ⟨log, rest, rfl, by rw [h1], by rw [h1]; exact hf0, by rw [h1], h2⟩

/-- What a returning call of `Next` on the heap does, on any iterator. -/
theorem refNext_result (pick : Pick) (heap heap1 : Heap)
    (it it1 : IteratorRef) (b : Bool)
    (h : it.Next pick heap = some (b, heap1, it1)) :
    (it.view heap).Next pick = some (b, it1.view heap1) ∧
      (b = true → ∃ log rest, it.logs.recv = some (log, rest) ∧ it1.logs = rest ∧
        it1.fail = none ∧ it1.Event = some heap.cells.length ∧
        heap1.cells = heap.cells ++
          [{ Hash := (it.contract.UnpackLog it.event log).1.Hash,
             HashWithoutNonce := (it.contract.UnpackLog it.event log).1.HashWithoutNonce,
             Nonce := (it.contract.UnpackLog it.event log).1.Nonce,
             Parent := (it.contract.UnpackLog it.event log).1.Parent,
             Raw := log }]) := by
  by_cases hs : it.fail.isSome = true ∨ it.done = true
  · exact refNext_settled_result pick heap heap1 it it1 b hs h
  · have hf0 : it.fail = none := by
      cases hx : it.fail with
      | none => rfl
      | some e => exact absurd (Or.inl (by rw [hx]; rfl)) hs
    have hd0 : it.done = false := by
      cases hx : it.done with
      | false => rfl
      | true => exact absurd (Or.inr hx) hs
    rcases select_resolution pick (it.view heap) with
      ⟨log, rest, hl, hp⟩ | ⟨err, erest, he, hp⟩ | ⟨hl, he⟩
    · rw [refNext_takes_log pick heap it hf0 hd0 log rest hl hp] at h
      simp only [Option.some.injEq] at h
      have hv := refCaseLog_view heap { it with logs := rest } log
      rw [h] at hv
      refine ⟨?_, fun hb => ?_⟩
      · rw [Testimonium.Next_takes_log pick (it.view heap) hf0 hd0 log rest hl hp]
        exact congrArg some hv.symm
      · subst hb
        obtain ⟨h1, h2⟩ := refCaseLog_true heap heap1 { it with logs := rest } it1 log h
        exact ⟨log, rest, hl, by rw [h1], by rw [h1]; exact hf0, by rw [h1], h2⟩
    · rw [refNext_takes_err pick heap it hf0 hd0 err erest he hp] at h
      obtain ⟨h1, h2⟩ := refNext_settled_result pick heap heap1
        (it.afterErr err erest) it1 b (Or.inr rfl) h
      refine ⟨?_, h2⟩
      rw [Testimonium.Next_takes_err pick (it.view heap) hf0 hd0 err erest he hp]
      exact h1
    · rw [refNext_waits pick heap it hf0 hd0 hl he] at h
      cases h

/-! ## The claims -/

/-- C4: on an iterator with a recorded terminal error, `Next` returns false
at once and the iterator is unchanged (no record leaves the log channel,
the error channel is not read, `Event`, `done` and `fail` are as before);
`Error()` keeps returning the same error and every later `Next` returns
false as well, whatever arrives in the meantime. -/
theorem next_failed_returns_false_unchanged (pick : Pick)
    (it : TestimoniumSubmitBlockHeaderIterator) (h : it.fail.isSome = true) :
    it.Next pick = some (false, it) ∧
      ∀ steps : List (Arrival × Pick), ∃ fin,
        runNext steps it = some (List.replicate steps.length false, fin) ∧
          fin.Error = it.Error ∧ fin.done = it.done ∧ fin.Event = it.Event :=
  ⟨Next_of_fail pick it h, fun steps => runNext_of_fail steps it h⟩

/-- C4 at a failed iterator with a decodable record still buffered. -/
theorem next_failed_returns_false_unchanged_witness :
    (sampleIterator [sampleLog 1] liveSub false (some subError)).fail.isSome = true ∧
      (sampleIterator [sampleLog 1] liveSub false (some subError)).Next Pick.logs =
        some (false, sampleIterator [sampleLog 1] liveSub false (some subError)) :=
  ⟨rfl, (next_failed_returns_false_unchanged Pick.logs
    (sampleIterator [sampleLog 1] liveSub false (some subError)) rfl).1⟩

/-- C1: when the query behind `FilterSubmitBlockHeader` returns a log
channel holding exactly the records `recs`, all of which decode, and a
subscription whose error channel yields nil (it completed without error),
and nothing further arrives, then on the iterator returned `Next` returns
true exactly `recs.length` times and false on the call after, under every
resolution `picks` of the selects, and `Error()` is nil afterwards. -/
theorem filter_then_drain_yields_all (f : TestimoniumFilterer) (opts : FilterOpts)
    (recs : List Log) (sub : Subscription) (picks : List Pick)
    (hq : f.contract.FilterLogs opts "SubmitBlockHeader" =
      Except.ok ({ buf := recs, closed := false }, sub))
    (hsub : ∃ erest, sub.Err.recv = some (none, erest))
    (hdec : ∀ l ∈ recs, (f.contract.UnpackLog "SubmitBlockHeader" l).2 = none)
    (hlen : picks.length = recs.length + 1) :
    ∃ it fin, f.FilterSubmitBlockHeader opts = (some it, none) ∧
      runNext (picks.map fun p => (Arrival.nothing, p)) it =
        some (List.replicate recs.length true ++ [false], fin) ∧
      fin.Error = none := by
  have hF : f.FilterSubmitBlockHeader opts =
      (some { Event := none, contract := f.contract, event := "SubmitBlockHeader",
              logs := { buf := recs, closed := false }, sub := sub, done := false,
              fail := none }, none) := by
    simp [TestimoniumFilterer.FilterSubmitBlockHeader, hq]
  obtain ⟨fin, hrun, hfin⟩ := runNext_drain recs picks
    { Event := none, contract := f.contract, event := "SubmitBlockHeader",
      logs := { buf := recs, closed := false }, sub := sub, done := false,
      fail := none } rfl rfl hdec (Or.inr ⟨rfl, hsub⟩) hlen
  exact ⟨_, fin, hF, hrun, hfin⟩

/-- C1 at `sampleContract`, whose query finds two decodable logs and then
completes, with the selects resolved as log case, error case, log case. -/
theorem filter_then_drain_yields_all_witness :
    (sampleContract.FilterLogs ⟨0, none⟩ "SubmitBlockHeader" =
        Except.ok ({ buf := [sampleLog 1, sampleLog 2], closed := false }, completedSub)) ∧
      (∃ erest, completedSub.Err.recv = some (none, erest)) ∧
      (∀ l ∈ [sampleLog 1, sampleLog 2],
        (sampleContract.UnpackLog "SubmitBlockHeader" l).2 = none) ∧
      [Pick.logs, Pick.err, Pick.logs].length = [sampleLog 1, sampleLog 2].length + 1 ∧
      ∃ it fin, TestimoniumFilterer.FilterSubmitBlockHeader ⟨sampleContract⟩ ⟨0, none⟩ =
          (some it, none) ∧
        runNext ([Pick.logs, Pick.err, Pick.logs].map fun p => (Arrival.nothing, p)) it =
          some (List.replicate [sampleLog 1, sampleLog 2].length true ++ [false], fin) ∧
        fin.Error = none :=
  ⟨rfl, ⟨_, rfl⟩, by decide, rfl,
    filter_then_drain_yields_all ⟨sampleContract⟩ ⟨0, none⟩ [sampleLog 1, sampleLog 2]
      completedSub [Pick.logs, Pick.err, Pick.logs] rfl ⟨_, rfl⟩ (by decide) rfl⟩

/-- C2, as stated, fails: an iterator in progress holds the decodable record
`sampleLog 1` in its log channel when `Next` receives the non-nil error
`subError` from the error channel.  That call returns false with the record
still in the channel, and the next call returns false again: the record is
never yielded. -/
theorem buffered_record_not_yielded_after_failure :
    (sampleContract.UnpackLog "SubmitBlockHeader" (sampleLog 1)).2 = none ∧
      (sampleIterator [sampleLog 1] failedSub false none).Next Pick.err =
        some (false, sampleIterator [sampleLog 1]
          { failedSub with errc := { buf := [], closed := true } } true (some subError)) ∧
      (sampleIterator [sampleLog 1]
          { failedSub with errc := { buf := [], closed := true } } true (some subError)).Next
            Pick.logs =
        some (false, sampleIterator [sampleLog 1]
          { failedSub with errc := { buf := [], closed := true } } true (some subError)) := by
  refine ⟨by decide, ?_, Next_of_fail _ _ rfl⟩
  rw [Next_takes_err Pick.err (sampleIterator [sampleLog 1] failedSub false none) rfl rfl
    (some subError) { buf := [], closed := true } rfl (Or.inl rfl)]
  exact Next_of_fail _ _ rfl

/-- C2, amended: an iterator in progress holds the record `log` at the head
of its log channel when `Next` receives `err` from the error channel.  If
`err` is nil (the subscription completed) and `log` decodes, the call marks
the iterator done, drains once and returns true with `Event` decoded from
`log` and `Raw` equal to it.  If `err` is a non-nil error `e`, the call
records `e`, returns false and leaves the record in the log channel. -/
theorem next_after_subscription_end (it : TestimoniumSubmitBlockHeaderIterator)
    (err : Option Error) (erest : Chan (Option Error)) (log : Log) (rest : Chan Log)
    (hf : it.fail = none) (hd : it.done = false)
    (hl : it.logs.recv = some (log, rest))
    (he : it.sub.Err.recv = some (err, erest)) :
    (err = none → (it.contract.UnpackLog it.event log).2 = none →
        it.Next Pick.err = some (true,
          { afterErr it none erest with
            logs := rest
            Event := some { TestimoniumSubmitBlockHeader.new.unpacked
                              (it.contract.UnpackLog it.event log).1 with Raw := log } })) ∧
      (∀ e, err = some e →
        it.Next Pick.err = some (false, afterErr it (some e) erest) ∧
          (afterErr it (some e) erest).logs = it.logs ∧
          (afterErr it (some e) erest).Error = some e) := by
  rw [Next_takes_err Pick.err it hf hd err erest he (Or.inl rfl)]
  constructor
  · intro h0 hdec
    subst h0
    rw [Next_of_done Pick.err (afterErr it none erest) rfl rfl]
    have hl2 : (afterErr it none erest).logs.recv = some (log, rest) := hl
    rw [hl2]
    simp only
    rw [caseLog_ok { afterErr it none erest with logs := rest } log hdec]
    rfl
  · intro e h0
    subst h0
    exact ⟨Next_of_fail _ _ rfl, rfl, rfl⟩

/-- C2 amended, at an iterator with one buffered record whose subscription
completed without error: the record is drained. -/
theorem next_after_subscription_end_witness :
    (sampleIterator [sampleLog 1] completedSub false none).fail = none ∧
      (sampleIterator [sampleLog 1] completedSub false none).done = false ∧
      (sampleIterator [sampleLog 1] completedSub false none).logs.recv =
        some (sampleLog 1, { buf := [], closed := false }) ∧
      (sampleIterator [sampleLog 1] completedSub false none).sub.Err.recv =
        some (none, completedSub.errc) ∧
      (sampleIterator [sampleLog 1] completedSub false none).Next Pick.err =
        some (true,
          { sampleIterator [] completedSub true none with
            Event := some { TestimoniumSubmitBlockHeader.new.unpacked
              (sampleContract.UnpackLog "SubmitBlockHeader" (sampleLog 1)).1 with
              Raw := sampleLog 1 } }) :=
  ⟨rfl, rfl, rfl, rfl,
    (next_after_subscription_end (sampleIterator [sampleLog 1] completedSub false none)
      none completedSub.errc (sampleLog 1) { buf := [], closed := false }
      rfl rfl rfl rfl).1 rfl (by decide)⟩

/-- C3: `ParseSubmitBlockHeader` does not attach the input log.  On the log
`sampleLog 7`, which `sampleContract` unpacks without error, it returns a
record with the decoded fields whose `Raw` is the zero log, not the input;
`Next`, taking the same log from the log channel, exposes an event with the
same decoded fields and `Raw` equal to the log. -/
theorem parse_leaves_raw_zero :
    (sampleContract.UnpackLog "SubmitBlockHeader" (sampleLog 7)).2 = none ∧
      TestimoniumFilterer.ParseSubmitBlockHeader ⟨sampleContract⟩ (sampleLog 7) =
        (some { Hash := Bytes.zero 32, HashWithoutNonce := Bytes.zero 32,
                Nonce := some 7, Parent := Bytes.zero 32, Raw := Log.zero }, none) ∧
      Log.zero ≠ sampleLog 7 ∧
      (sampleIterator [sampleLog 7] liveSub false none).Next Pick.logs =
        some (true,
          { sampleIterator [] liveSub false none with
            Event := some { Hash := Bytes.zero 32, HashWithoutNonce := Bytes.zero 32,
                            Nonce := some 7, Parent := Bytes.zero 32,
                            Raw := sampleLog 7 } }) := by
  refine ⟨by decide, by decide, by decide, ?_⟩
  rw [Next_takes_log Pick.logs (sampleIterator [sampleLog 7] liveSub false none) rfl rfl
    (sampleLog 7) { buf := [], closed := false } rfl (Or.inl rfl)]
  rfl

/-- C5: an iterator without recorded error takes the record `log` from its
log channel (it is done; or its select takes the log case; or its select
receives nil from the error channel and the drain takes the record) and
decoding `log` fails with `e`.  Then that call of `Next` returns false with
the record consumed, `Error()` is `e` afterwards, and every later call of
`Next` returns false with `Error()` still `e`, whatever is or gets
buffered. -/
theorem decode_failure_is_terminal (pick : Pick)
    (it : TestimoniumSubmitBlockHeaderIterator) (log : Log) (rest : Chan Log) (e : Error)
    (hf : it.fail = none) (hl : it.logs.recv = some (log, rest))
    (htake : it.done = true ∨ pick = Pick.logs ∨ it.sub.Err.recv = none ∨
      ∃ erest, it.sub.Err.recv = some (none, erest))
    (hdec : (it.contract.UnpackLog it.event log).2 = some e) :
    ∃ it1, it.Next pick = some (false, it1) ∧ it1.Error = some e ∧ it1.logs = rest ∧
      ∀ steps : List (Arrival × Pick), ∃ fin,
        runNext steps it1 = some (List.replicate steps.length false, fin) ∧
          fin.Error = some e := by
  have key : ∃ it1, it.Next pick = some (false, it1) ∧ it1.fail = some e ∧ it1.logs = rest := by
    cases hdone : it.done with
    | true =>
      rw [Next_of_done pick it hf hdone, hl]
      simp only
      rw [caseLog_err { it with logs := rest } log e hdec]
      exact ⟨_, rfl, rfl, rfl⟩
    | false =>
      have viaLog : (pick = Pick.logs ∨ it.sub.Err.recv = none) →
          ∃ it1, it.Next pick = some (false, it1) ∧ it1.fail = some e ∧ it1.logs = rest := by
        intro hp
        rw [Next_takes_log pick it hf hdone log rest hl hp,
          caseLog_err { it with logs := rest } log e hdec]
        exact ⟨_, rfl, rfl, rfl⟩
      rcases htake with h | h | h | ⟨erest, h⟩
      · rw [hdone] at h; cases h
      · exact viaLog (Or.inl h)
      · exact viaLog (Or.inr h)
      · cases pick with
        | logs => exact viaLog (Or.inl rfl)
        | err =>
          rw [Next_takes_err Pick.err it hf hdone none erest h (Or.inl rfl),
            Next_of_done Pick.err (afterErr it none erest) rfl rfl]
          have hl2 : (afterErr it none erest).logs.recv = some (log, rest) := hl
          rw [hl2]
          simp only
          rw [caseLog_err { afterErr it none erest with logs := rest } log e hdec]
          exact ⟨_, rfl, rfl, rfl⟩
  obtain ⟨it1, h1, h2, h3⟩ := key
  refine ⟨it1, h1, h2, h3, fun steps => ?_⟩
  obtain ⟨fin, hrun, hfin, _, _⟩ := runNext_of_fail steps it1 (by rw [h2]; rfl)
  exact ⟨fin, hrun, hfin.trans h2⟩

/-- C5 at an iterator in progress whose log channel holds an undecodable
record followed by a decodable one. -/
theorem decode_failure_is_terminal_witness :
    (sampleIterator [badLog, sampleLog 1] liveSub false none).fail = none ∧
      (sampleIterator [badLog, sampleLog 1] liveSub false none).logs.recv =
        some (badLog, { buf := [sampleLog 1], closed := false }) ∧
      (sampleContract.UnpackLog "SubmitBlockHeader" badLog).2 = some decodeError ∧
      ∃ it1, (sampleIterator [badLog, sampleLog 1] liveSub false none).Next Pick.logs =
          some (false, it1) ∧ it1.Error = some decodeError ∧
        it1.logs = { buf := [sampleLog 1], closed := false } ∧
        ∀ steps : List (Arrival × Pick), ∃ fin,
          runNext steps it1 = some (List.replicate steps.length false, fin) ∧
            fin.Error = some decodeError :=
  ⟨rfl, rfl, by decide,
    decode_failure_is_terminal Pick.logs
      (sampleIterator [badLog, sampleLog 1] liveSub false none) badLog
      { buf := [sampleLog 1], closed := false } decodeError rfl rfl
      (Or.inr (Or.inl rfl)) (by decide)⟩

/-- C6: after `steps1.length` calls of `Next` that all returned true, the
next call receives the non-nil error `e` from the error channel (the
iterator has no recorded error and is not done, the error channel yields
`e`, and the select takes the error case).  Then that call returns false and
so does every later call, whatever is or gets buffered in the log channel:
the calls returned true exactly `steps1.length` times in total, and
`Error()` is `e` at the end. -/
theorem subscription_failure_after_k_events
    (it0 itK : TestimoniumSubmitBlockHeaderIterator)
    (steps1 steps2 : List (Arrival × Pick)) (a : Arrival) (pick : Pick) (e : Error)
    (erest : Chan (Option Error))
    (hrun : runNext steps1 it0 = some (List.replicate steps1.length true, itK))
    (hf : itK.fail = none) (hd : itK.done = false)
    (he : (a.apply itK).sub.Err.recv = some (some e, erest))
    (hp : pick = Pick.err ∨ (a.apply itK).logs.recv = none) :
    (a.apply itK).Next pick = some (false, afterErr (a.apply itK) (some e) erest) ∧
      ∃ results fin, runNext (steps1 ++ (a, pick) :: steps2) it0 = some (results, fin) ∧
        results = List.replicate steps1.length true ++
          List.replicate (steps2.length + 1) false ∧
        results.count true = steps1.length ∧ fin.Error = some e := by
  obtain ⟨hf1, hd1, _⟩ := Arrival.apply_frame a itK
  have hcall : (a.apply itK).Next pick =
      some (false, afterErr (a.apply itK) (some e) erest) := by
    rw [Next_takes_err pick (a.apply itK) (hf1.trans hf) (hd1.trans hd) (some e) erest he hp]
    exact Next_of_fail _ _ rfl
  obtain ⟨fin, hrest, hfin, _, _⟩ :=
    runNext_of_fail steps2 (afterErr (a.apply itK) (some e) erest) rfl
  have htail : runNext ((a, pick) :: steps2) itK =
      some (List.replicate (steps2.length + 1) false, fin) := by
    simp [runNext, hcall, hrest, List.replicate_succ]
  refine ⟨hcall, _, fin, runNext_append _ _ _ _ _ _ _ hrun htail, rfl, ?_, hfin⟩
  simp [List.count_replicate]

/-- C6 with one event yielded before the subscription fails and one
decodable record still buffered at that moment. -/
theorem subscription_failure_after_k_events_witness :
    runNext [(Arrival.nothing, Pick.logs)]
        (sampleIterator [sampleLog 1, sampleLog 2] liveSub false none) =
      some (List.replicate [(Arrival.nothing, Pick.logs)].length true,
        { sampleIterator [sampleLog 2] liveSub false none with
          Event := some { TestimoniumSubmitBlockHeader.new.unpacked
            (sampleContract.UnpackLog "SubmitBlockHeader" (sampleLog 1)).1 with
            Raw := sampleLog 1 } }) ∧
      ∃ results fin,
        runNext ([(Arrival.nothing, Pick.logs)] ++
            (({ logs := [], errs := [some subError], closeErr := true } : Arrival), Pick.err) ::
              [(Arrival.nothing, Pick.logs)])
          (sampleIterator [sampleLog 1, sampleLog 2] liveSub false none) =
            some (results, fin) ∧
        results = [true, false, false] ∧ fin.Error = some subError := by
  have hrun : runNext [(Arrival.nothing, Pick.logs)]
        (sampleIterator [sampleLog 1, sampleLog 2] liveSub false none) =
      some (List.replicate [(Arrival.nothing, Pick.logs)].length true,
        { sampleIterator [sampleLog 2] liveSub false none with
          Event := some { TestimoniumSubmitBlockHeader.new.unpacked
            (sampleContract.UnpackLog "SubmitBlockHeader" (sampleLog 1)).1 with
            Raw := sampleLog 1 } }) := by
    rw [runNext, Arrival.nothing_apply,
      Next_takes_log Pick.logs (sampleIterator [sampleLog 1, sampleLog 2] liveSub false none)
        rfl rfl (sampleLog 1) { buf := [sampleLog 2], closed := false } rfl (Or.inl rfl)]
    rfl
  obtain ⟨_, results, fin, h1, h2, _, h4⟩ :=
    subscription_failure_after_k_events _ _ [(Arrival.nothing, Pick.logs)]
      [(Arrival.nothing, Pick.logs)]
      { logs := [], errs := [some subError], closeErr := true } Pick.err subError
      { buf := [], closed := true } hrun rfl rfl rfl (Or.inl rfl)
  exact ⟨hrun, results, fin, h1, h2, h4⟩

/-- C7, as stated, fails: closing a fresh iterator twice invokes the
subscription's `Unsubscribe` twice, not once. -/
theorem close_twice_unsubscribes_twice :
    (sampleIterator [] liveSub false none).sub.unsubscribeCalls = 0 ∧
      (sampleIterator [] liveSub false none).Close.2.Close.2.sub.unsubscribeCalls = 2 := by
  decide

/-- C7, amended: `Close` has no guard of its own.  On every iterator,
whether or not `Next` was ever called, each call of `Close` returns nil and
invokes the subscription's `Unsubscribe` exactly once, so calling `Close`
twice invokes it twice.  The first invocation releases the subscription;
the second changes nothing but the count of invocations. -/
theorem close_unsubscribes_on_every_call (it : TestimoniumSubmitBlockHeaderIterator) :
    it.Close.1 = none ∧
      it.Close.2 = { it with sub := it.sub.Unsubscribe } ∧
      it.Close.2.sub.unsubscribeCalls = it.sub.unsubscribeCalls + 1 ∧
      it.Close.2.sub.unsubscribed = true ∧
      it.Close.2.Close.1 = none ∧
      it.Close.2.Close.2.sub.unsubscribeCalls = it.sub.unsubscribeCalls + 2 ∧
      it.Close.2.Close.2 =
        { it.Close.2 with
          sub := { it.Close.2.sub with unsubscribeCalls := it.sub.unsubscribeCalls + 2 } } := by
  cases hu : it.sub.unsubscribed <;>
    simp [TestimoniumSubmitBlockHeaderIterator.Close, Subscription.Unsubscribe, hu]

/-- C10: `FilterSubmitBlockHeader` returns `(nil, err)` exactly when the
`FilterLogs` query for "SubmitBlockHeader" fails, with that query's error;
otherwise it returns, with a nil error, an iterator bound to the contract,
to the query's log channel and subscription and to the event name
"SubmitBlockHeader", with `Event` nil, `done` false and `Error()` nil. -/
theorem filter_result (f : TestimoniumFilterer) (opts : FilterOpts) :
    (∀ err, f.contract.FilterLogs opts "SubmitBlockHeader" = Except.error err ↔
        f.FilterSubmitBlockHeader opts = (none, some err)) ∧
      (∀ logs sub, f.contract.FilterLogs opts "SubmitBlockHeader" = Except.ok (logs, sub) →
        f.FilterSubmitBlockHeader opts =
            (some { Event := none, contract := f.contract, event := "SubmitBlockHeader",
                    logs := logs, sub := sub, done := false, fail := none }, none)) ∧
      (∀ it err, f.FilterSubmitBlockHeader opts = (some it, err) →
        err = none ∧
          f.contract.FilterLogs opts "SubmitBlockHeader" = Except.ok (it.logs, it.sub) ∧
          it.contract = f.contract ∧ it.event = "SubmitBlockHeader" ∧ it.Event = none ∧
          it.done = false ∧ it.Error = none) := by
  cases hq : f.contract.FilterLogs opts "SubmitBlockHeader" with
  | error e0 =>
    simp [TestimoniumFilterer.FilterSubmitBlockHeader, hq]
  | ok q =>
    obtain ⟨logs0, sub0⟩ := q
    refine ⟨fun err => ?_, fun logs sub h => ?_, fun it err h => ?_⟩
    · simp [TestimoniumFilterer.FilterSubmitBlockHeader, hq]
    · simp only [Except.ok.injEq, Prod.mk.injEq] at h
      obtain ⟨rfl, rfl⟩ := h
      simp [TestimoniumFilterer.FilterSubmitBlockHeader, hq]
    · simp only [TestimoniumFilterer.FilterSubmitBlockHeader, hq, Prod.mk.injEq,
        Option.some.injEq] at h
      obtain ⟨rfl, rfl⟩ := h
      exact ⟨rfl, rfl, rfl, rfl, rfl, rfl, rfl⟩

/-- C9: the watch loop, started running, has returned `r` exactly when its
schedule consists of iterations that delivered decodable logs to the sink
followed by one iteration `w` of one of these kinds: a log arrives that
fails to decode with `e`, and `r` is `e`; the error channel yields `r`
while the loop waits for a log, or while it delivers a decoded event to the
sink; `quit` fires while the loop waits for a log, or while it delivers,
and `r` is nil.  Cancellation therefore never reports an error. -/
theorem watch_loop_result (c : BoundContract) (sched : List Wake) (st : WatchState)
    (r : Option Error) (h0 : st.result = none) :
    (watchLoop c sched st).result = some r ↔
      ∃ (ls : List Log) (w : Wake) (post : List Wake),
        sched = ls.map delivered ++ w :: post ∧
        (∀ l ∈ ls, (c.UnpackLog "SubmitBlockHeader" l).2 = none) ∧
        ((∃ l d e, w = Wake.log l d ∧
            (c.UnpackLog "SubmitBlockHeader" l).2 = some e ∧ r = some e) ∨
          w = Wake.err r ∨
          (∃ l, w = Wake.log l (Deliver.err r) ∧
            (c.UnpackLog "SubmitBlockHeader" l).2 = none) ∨
          (w = Wake.quit ∧ r = none) ∨
          (∃ l, w = Wake.log l Deliver.quit ∧
            (c.UnpackLog "SubmitBlockHeader" l).2 = none ∧ r = none)) := by
  constructor
  · intro hres
    obtain ⟨ls, rest, hdec, hs, hrest⟩ := schedule_split c sched
    rw [hs, watchLoop_delivered c ls rest st hdec] at hres
    rcases hrest with rfl | ⟨w, post, rfl, hw⟩
    · simp [watchLoop, h0] at hres
    · refine ⟨ls, w, post, hs, hdec, ?_⟩
      cases w with
      | log l d =>
        cases hl : (c.UnpackLog "SubmitBlockHeader" l).2 with
        | some e =>
          simp only [watchLoop, hl, WatchState.exit, Option.some.injEq] at hres
          exact Or.inl ⟨l, d, e, rfl, hl, hres.symm⟩
        | none =>
          cases d with
          | sink => exact absurd ⟨l, rfl, hl⟩ hw
          | err e1 =>
            simp only [watchLoop, hl, WatchState.exit, Option.some.injEq] at hres
            subst hres
            exact Or.inr (Or.inr (Or.inl ⟨l, rfl, hl⟩))
          | quit =>
            simp only [watchLoop, hl, WatchState.exit, Option.some.injEq] at hres
            exact Or.inr (Or.inr (Or.inr (Or.inr ⟨l, rfl, hl, hres.symm⟩)))
      | err e1 =>
        simp only [watchLoop, WatchState.exit, Option.some.injEq] at hres
        subst hres
        exact Or.inr (Or.inl rfl)
      | quit =>
        simp only [watchLoop, WatchState.exit, Option.some.injEq] at hres
        exact Or.inr (Or.inr (Or.inr (Or.inl ⟨rfl, hres.symm⟩)))
  · rintro ⟨ls, w, post, rfl, hdec, hw⟩
    rw [watchLoop_delivered c ls (w :: post) st hdec]
    rcases hw with ⟨l, d, e, rfl, hl, rfl⟩ | rfl | ⟨l, rfl, hl⟩ | ⟨rfl, rfl⟩ | ⟨l, rfl, hl, rfl⟩
    · simp [watchLoop, WatchState.exit, hl]
    · simp [watchLoop, WatchState.exit]
    · simp [watchLoop, WatchState.exit, hl]
    · simp [watchLoop, WatchState.exit]
    · simp [watchLoop, WatchState.exit, hl]

/-- C9 at a schedule in which one log is delivered and then `quit` fires:
the loop returns nil. -/
theorem watch_loop_result_witness :
    (WatchState.mk liveSub [] [] none).result = none ∧
      (watchLoop sampleContract [delivered (sampleLog 1), Wake.quit]
        (WatchState.mk liveSub [] [] none)).result = some none :=
  ⟨rfl, (watch_loop_result sampleContract [delivered (sampleLog 1), Wake.quit]
    (WatchState.mk liveSub [] [] none) none rfl).2
      ⟨[sampleLog 1], Wake.quit, [], rfl, by decide, Or.inr (Or.inr (Or.inr (Or.inl ⟨rfl, rfl⟩)))⟩⟩

/-- C8: in the goroutine started by `WatchSubmitBlockHeader`, let the log
at position `i` of the logs the loop has taken fail to decode with `e`.
Then the loop has stopped and returned exactly `e`; every log before
position `i` decoded, so `i` is the first failure; no log after position `i`
was taken; and the sink has received exactly the decoded events of the `i`
logs before it, in arrival order, each with `Raw` equal to its log: nothing
was sent for the malformed log or anything after it. -/
theorem watch_stops_at_first_decode_failure (f : TestimoniumFilterer) (opts : WatchOpts)
    (st0 : WatchState) (sched : List Wake) (i : Nat) (log : Log) (e : Error)
    (hw : f.WatchSubmitBlockHeader opts = (some st0, none))
    (hi : (watchLoop f.contract sched st0).received[i]? = some log)
    (hbad : (f.contract.UnpackLog "SubmitBlockHeader" log).2 = some e) :
    (watchLoop f.contract sched st0).result = some (some e) ∧
      (∀ j l, j < i → (watchLoop f.contract sched st0).received[j]? = some l →
        (f.contract.UnpackLog "SubmitBlockHeader" l).2 = none) ∧
      (watchLoop f.contract sched st0).received.length = i + 1 ∧
      (watchLoop f.contract sched st0).sink =
        ((watchLoop f.contract sched st0).received.take i).map (decodedEvent f.contract) ∧
      (watchLoop f.contract sched st0).sink.map (fun ev => ev.Raw) =
        (watchLoop f.contract sched st0).received.take i := by
  obtain ⟨hs0, hr0, _⟩ := watch_initial f opts st0 none hw
  obtain ⟨ls, hdec, hsink, hrec⟩ := watchLoop_received f.contract sched st0
  rw [hs0, List.nil_append] at hsink
  rw [hr0] at hrec
  simp only [List.nil_append] at hrec
  have notin : log ∉ ls := fun h => by
    have := hdec log h
    rw [hbad] at this
    cases this
  rcases hrec with hrec | ⟨l, hrec, hl⟩
  · rw [hrec] at hi
    exact absurd (List.getElem?_mem hi) notin
  · rw [hrec] at hi
    by_cases hlt : i < ls.length
    · rw [List.getElem?_append_left hlt] at hi
      exact absurd (List.getElem?_mem hi) notin
    · have hge : ls.length ≤ i := Nat.le_of_not_lt hlt
      rw [List.getElem?_append_right hge] at hi
      have hmem := List.getElem?_mem hi
      simp only [List.mem_singleton] at hmem
      subst hmem
      have hidx : i = ls.length := by
        obtain ⟨hlen, _⟩ := List.getElem?_eq_some.1 hi
        simp only [List.length_singleton] at hlen
        omega
      subst hidx
      rcases hl with hl | ⟨e1, hl, hres⟩
      · rw [hbad] at hl
        cases hl
      · rw [hbad] at hl
        cases hl
        refine ⟨hres, ?_, ?_, ?_, ?_⟩
        · intro j l hj hjl
          rw [hrec, List.getElem?_append_left hj] at hjl
          exact hdec l (List.getElem?_mem hjl)
        · rw [hrec]
          simp
        · rw [hsink, hrec, List.take_left]
        · rw [hsink, hrec, List.take_left]
          exact map_raw_decodedEvent f.contract ls

/-- C8 at a schedule in which a decodable log is delivered, an undecodable
one arrives and a further decodable one follows. -/
theorem watch_stops_at_first_decode_failure_witness :
    TestimoniumFilterer.WatchSubmitBlockHeader ⟨sampleContract⟩ ⟨none⟩ =
        (some (WatchState.mk liveSub [] [] none), none) ∧
      (watchLoop sampleContract
          [delivered (sampleLog 1), delivered badLog, delivered (sampleLog 2)]
          (WatchState.mk liveSub [] [] none)).received[1]? = some badLog ∧
      (sampleContract.UnpackLog "SubmitBlockHeader" badLog).2 = some decodeError ∧
      (watchLoop sampleContract
          [delivered (sampleLog 1), delivered badLog, delivered (sampleLog 2)]
          (WatchState.mk liveSub [] [] none)).result = some (some decodeError) ∧
      (watchLoop sampleContract
          [delivered (sampleLog 1), delivered badLog, delivered (sampleLog 2)]
          (WatchState.mk liveSub [] [] none)).sink = [decodedEvent sampleContract (sampleLog 1)] :=
  ⟨rfl, by decide, by decide,
    (watch_stops_at_first_decode_failure ⟨sampleContract⟩ ⟨none⟩
      (WatchState.mk liveSub [] [] none)
      [delivered (sampleLog 1), delivered badLog, delivered (sampleLog 2)] 1 badLog
      decodeError rfl (by decide) (by decide)).1,
    by decide⟩

/-- C11: on an iterator whose log channel is open, a call of `Next` that
returns true has removed exactly the head record `log` of the log channel.
`Event` then points to a freshly allocated record: its address `p` was not
allocated before the call, so it differs from every pointer handed out
earlier, and every record allocated earlier is left as it was.  The record
at `p` holds the decoding of `log` (`Hash`, `HashWithoutNonce`, `Nonce` and
`Parent` as `UnpackLog` returned them) with `Raw` equal to `log`; this is the
`Event` the caller sees, and `Error()` is nil.  Consequently, over any run of
calls from that iterator, the `Raw` values exposed by the calls that returned
true are, in order, a prefix of the records the channel held followed by
those that arrived: nothing is reordered, skipped or deduplicated. -/
theorem next_true_exposes_head_in_order (pick : Pick) (heap heap1 : Heap)
    (it it1 : IteratorRef) (fin : TestimoniumSubmitBlockHeaderIterator)
    (steps : List (Arrival × Pick)) (raws : List Log)
    (hopen : it.logs.closed = false)
    (hnext : it.Next pick heap = some (true, heap1, it1))
    (hrun : runRaws steps (it.view heap) = some (raws, fin)) :
    (it.view heap).Next pick = some (true, it1.view heap1) ∧
      (∃ log p, it.logs.buf = log :: it1.logs.buf ∧ it1.logs.closed = false ∧
        it1.Event = some p ∧ heap.read p = none ∧
        (∀ q v, heap.read q = some v → q ≠ p ∧ heap1.read q = some v) ∧
        heap1.read p =
          some { Hash := (it.contract.UnpackLog it.event log).1.Hash,
                 HashWithoutNonce := (it.contract.UnpackLog it.event log).1.HashWithoutNonce,
                 Nonce := (it.contract.UnpackLog it.event log).1.Nonce,
                 Parent := (it.contract.UnpackLog it.event log).1.Parent,
                 Raw := log } ∧
        (it1.view heap1).Event =
          some { Hash := (it.contract.UnpackLog it.event log).1.Hash,
                 HashWithoutNonce := (it.contract.UnpackLog it.event log).1.HashWithoutNonce,
                 Nonce := (it.contract.UnpackLog it.event log).1.Nonce,
                 Parent := (it.contract.UnpackLog it.event log).1.Parent,
                 Raw := log } ∧
        (it1.view heap1).Error = none) ∧
      raws <+: it.logs.buf ++ arrivedLogs steps := by
  obtain ⟨hview, htrue⟩ := refNext_result pick heap heap1 it it1 true hnext
  obtain ⟨log, rest, hl, hlogs, hfail, hE, hcells⟩ := htrue rfl
  obtain ⟨hc, hhead⟩ := Chan.recv_some it.logs rest log hl
  have hread : heap1.read heap.cells.length =
      some { Hash := (it.contract.UnpackLog it.event log).1.Hash,
             HashWithoutNonce := (it.contract.UnpackLog it.event log).1.HashWithoutNonce,
             Nonce := (it.contract.UnpackLog it.event log).1.Nonce,
             Parent := (it.contract.UnpackLog it.event log).1.Parent,
             Raw := log } := by
    simp [Heap.read, hcells]
  refine ⟨hview, ⟨log, heap.cells.length, ?_, ?_, hE, ?_, ?_, hread, ?_, hfail⟩,
    runRaws_prefix steps (it.view heap) fin raws hopen hrun⟩
  · rw [hhead hopen, hlogs]
  · rw [hlogs]
    exact hc.trans hopen
  · simp [Heap.read]
  · intro q v hq
    have hlt : q < heap.cells.length := (List.getElem?_eq_some.1 hq).1
    refine ⟨Nat.ne_of_lt hlt, ?_⟩
    simp only [Heap.read, hcells]
    rw [List.getElem?_append_left hlt]
    exact hq
  · simp only [IteratorRef.view, hE, Option.bind]
    exact hread

/-- C11 at an iterator in progress that holds two decodable records and
points to the event of an earlier call at address 0: the call allocates
address 1 for the first record and leaves the earlier event alone. -/
theorem next_true_exposes_head_in_order_witness :
    (sampleIteratorRef (some 0) [sampleLog 1, sampleLog 2] liveSub false none).logs.closed =
        false ∧
      (sampleIteratorRef (some 0) [sampleLog 1, sampleLog 2] liveSub false none).Next
          Pick.logs sampleHeap =
        some (true,
          { cells := [decodedEvent sampleContract (sampleLog 0),
                      decodedEvent sampleContract (sampleLog 1)] },
          sampleIteratorRef (some 1) [sampleLog 2] liveSub false none) ∧
      runRaws [(Arrival.nothing, Pick.logs)]
          ((sampleIteratorRef (some 0) [sampleLog 1, sampleLog 2] liveSub false none).view
            sampleHeap) =
        some ([sampleLog 1],
          (sampleIteratorRef (some 1) [sampleLog 2] liveSub false none).view
            { cells := [decodedEvent sampleContract (sampleLog 0),
                        decodedEvent sampleContract (sampleLog 1)] }) ∧
      sampleHeap.read 1 = none ∧
      Heap.read { cells := [decodedEvent sampleContract (sampleLog 0),
                            decodedEvent sampleContract (sampleLog 1)] } 0 =
        some (decodedEvent sampleContract (sampleLog 0)) ∧
      [sampleLog 1] <+:
        (sampleIteratorRef (some 0) [sampleLog 1, sampleLog 2] liveSub false none).logs.buf ++
          arrivedLogs [(Arrival.nothing, Pick.logs)] := by
  have hnext : (sampleIteratorRef (some 0) [sampleLog 1, sampleLog 2] liveSub false none).Next
        Pick.logs sampleHeap =
      some (true,
        { cells := [decodedEvent sampleContract (sampleLog 0),
                    decodedEvent sampleContract (sampleLog 1)] },
        sampleIteratorRef (some 1) [sampleLog 2] liveSub false none) := by
    rw [refNext_takes_log Pick.logs sampleHeap
      (sampleIteratorRef (some 0) [sampleLog 1, sampleLog 2] liveSub false none)
      rfl rfl (sampleLog 1) { buf := [sampleLog 2], closed := false } rfl (Or.inl rfl)]
    rfl
  have hview := (refNext_result Pick.logs _ _ _ _ true hnext).1
  have hrun : runRaws [(Arrival.nothing, Pick.logs)]
        ((sampleIteratorRef (some 0) [sampleLog 1, sampleLog 2] liveSub false none).view
          sampleHeap) =
      some ([sampleLog 1],
        (sampleIteratorRef (some 1) [sampleLog 2] liveSub false none).view
          { cells := [decodedEvent sampleContract (sampleLog 0),
                      decodedEvent sampleContract (sampleLog 1)] }) := by
    rw [runRaws, Arrival.nothing_apply, hview]
    rfl
  obtain ⟨_, ⟨_, p, _, _, hp, hfresh, hold, _, _, _⟩, hprefix⟩ :=
    next_true_exposes_head_in_order Pick.logs _ _ _ _ _ [(Arrival.nothing, Pick.logs)]
      [sampleLog 1] rfl hnext hrun
  have hp1 : p = 1 := (Option.some.inj hp).symm
  subst hp1
  exact ⟨rfl, hnext, hrun, hfresh, (hold 0 _ rfl).2, hprefix⟩

/-- C12: the session variants only pre-bind the options.  Each read method
of `TestimoniumSession` and of `TestimoniumCallerSession` returns what the
caller facade's method returns on the session's `CallOpts` and the same
arguments in the same order, and each write method of `TestimoniumSession`
and of `TestimoniumTransactorSession` returns what the transactor facade's
method returns on the session's `TransactOpts` and the same arguments; for
the three-argument `VerifyTransaction` and for `SubmitHeader` the order is
spelled out down to the call on the bound contract. -/
theorem sessions_forward_with_bound_options (s : TestimoniumSession)
    (cs : TestimoniumCallerSession) (ts : TestimoniumTransactorSession)
    (hash arg0 blockHash txHash requested : Bytes 32) (index : Option Int)
    (noOfConfirmations : Fin 256) (rlpHeader : List (Fin 256)) :
    (s.GetBlock hash = s.Contract.TestimoniumCaller.GetBlock s.CallOpts hash ∧
      cs.GetBlock hash = cs.Contract.GetBlock cs.CallOpts hash ∧
      s.GetBlockHashOfEndpoint index =
        s.Contract.TestimoniumCaller.GetBlockHashOfEndpoint s.CallOpts index ∧
      cs.GetBlockHashOfEndpoint index = cs.Contract.GetBlockHashOfEndpoint cs.CallOpts index ∧
      s.GetNoOfForks = s.Contract.TestimoniumCaller.GetNoOfForks s.CallOpts ∧
      cs.GetNoOfForks = cs.Contract.GetNoOfForks cs.CallOpts ∧
      s.Headers arg0 = s.Contract.TestimoniumCaller.Headers s.CallOpts arg0 ∧
      cs.Headers arg0 = cs.Contract.Headers cs.CallOpts arg0 ∧
      s.IsBlock hash = s.Contract.TestimoniumCaller.IsBlock s.CallOpts hash ∧
      cs.IsBlock hash = cs.Contract.IsBlock cs.CallOpts hash ∧
      s.IsUnlocked blockHash = s.Contract.TestimoniumCaller.IsUnlocked s.CallOpts blockHash ∧
      cs.IsUnlocked blockHash = cs.Contract.IsUnlocked cs.CallOpts blockHash ∧
      s.VerifyTransaction txHash requested noOfConfirmations =
        s.Contract.TestimoniumCaller.VerifyTransaction s.CallOpts txHash requested
          noOfConfirmations ∧
      cs.VerifyTransaction txHash requested noOfConfirmations =
        cs.Contract.VerifyTransaction cs.CallOpts txHash requested noOfConfirmations) ∧
    (s.DisputeBlock blockHash =
        s.Contract.TestimoniumTransactor.DisputeBlock s.TransactOpts blockHash ∧
      ts.DisputeBlock blockHash = ts.Contract.DisputeBlock ts.TransactOpts blockHash ∧
      s.SubmitHeader rlpHeader =
        s.Contract.TestimoniumTransactor.SubmitHeader s.TransactOpts rlpHeader ∧
      ts.SubmitHeader rlpHeader = ts.Contract.SubmitHeader ts.TransactOpts rlpHeader) ∧
    (s.VerifyTransaction txHash requested noOfConfirmations =
        s.Contract.TestimoniumCaller.contract.Call s.CallOpts (Out.single (Value.bool false))
          "verifyTransaction"
          [Value.bytes32 txHash, Value.bytes32 requested, Value.uint8 noOfConfirmations] ∧
      cs.VerifyTransaction txHash requested noOfConfirmations =
        cs.Contract.contract.Call cs.CallOpts (Out.single (Value.bool false))
          "verifyTransaction"
          [Value.bytes32 txHash, Value.bytes32 requested, Value.uint8 noOfConfirmations] ∧
      s.SubmitHeader rlpHeader =
        s.Contract.TestimoniumTransactor.contract.Transact s.TransactOpts "submitHeader"
          [Value.bytes rlpHeader] ∧
      ts.SubmitHeader rlpHeader =
        ts.Contract.contract.Transact ts.TransactOpts "submitHeader"
          [Value.bytes rlpHeader]) :=
  ⟨⟨rfl, rfl, rfl, rfl, rfl, rfl, rfl, rfl, rfl, rfl, rfl, rfl, rfl, rfl⟩,
    ⟨rfl, rfl, rfl, rfl⟩, ⟨rfl, rfl, rfl, rfl⟩⟩

/-- An iterator in progress with an empty log channel and a live
subscription: `Next` waits, under either resolution of the select and as
long as nothing arrives. -/
theorem blocked_next_keeps_waiting :
    (sampleIterator [] liveSub false none).logs.recv = none ∧
      (sampleIterator [] liveSub false none).sub.Err.recv = none ∧
      (sampleIterator [] liveSub false none).Next Pick.logs = none ∧
      (sampleIterator [] liveSub false none).Next Pick.err = none ∧
      runNext [(Arrival.nothing, Pick.logs)] (sampleIterator [] liveSub false none) = none :=
  ⟨rfl, rfl,
    Next_waits Pick.logs (sampleIterator [] liveSub false none) rfl rfl rfl rfl,
    Next_waits Pick.err (sampleIterator [] liveSub false none) rfl rfl rfl rfl, by
    rw [runNext, Arrival.nothing_apply,
      Next_waits Pick.logs (sampleIterator [] liveSub false none) rfl rfl rfl rfl]⟩

/-- C13: a call of `Next` is blocked: the iterator is in progress, the log
channel is empty and no subscription error is pending, so the call waits.
The caller cancels the iterator with `Close`, which unsubscribes the
subscription (not released before) and thereby closes the error channel.
Then the call returns false with `Error()` nil, the iterator being done; the
same holds when the subscription ends by itself.  When instead the
subscription fails with a non-nil error `e`, the call returns false with
`Error()` equal to `e`, which is not nil: `Error()` tells cancellation from
failure. -/
theorem cancelled_next_returns_false_without_error (pick : Pick)
    (it : TestimoniumSubmitBlockHeaderIterator) (hf : it.fail = none)
    (hd : it.done = false) (hl : it.logs.recv = none) (he : it.sub.Err.recv = none)
    (hu : it.sub.unsubscribed = false) :
    it.Next pick = none ∧
      (∃ it1, it.Close.2.Next pick = some (false, it1) ∧ it1.Error = none ∧
        it1.done = true) ∧
      (∃ it1, (Arrival.closing.apply it).Next pick = some (false, it1) ∧
        it1.Error = none ∧ it1.done = true) ∧
      (∀ e : Error, ∃ it1, ((Arrival.failing e).apply it).Next pick = some (false, it1) ∧
        it1.Error = some e ∧ it1.Error ≠ none ∧ it1.done = true) := by
  have he2 : it.sub.errc = { buf := [], closed := false } :=
    (Chan.recv_eq_none it.sub.errc).1 he
  refine ⟨Next_waits pick it hf hd hl he, ?_, ?_, ?_⟩
  · have e1 : it.Close.2.sub.Err.recv = some (none, { buf := [], closed := true }) := by
      simp [TestimoniumSubmitBlockHeaderIterator.Close, Subscription.Unsubscribe, hu,
        Subscription.Err, he2, Chan.close, Chan.recv]
      rfl
    have l1 : it.Close.2.logs.recv = none := hl
    rw [Next_takes_err pick it.Close.2 hf hd none _ e1 (Or.inr l1),
      Next_of_done pick (afterErr it.Close.2 none _) rfl rfl]
    have l2 : (afterErr it.Close.2 none { buf := [], closed := true }).logs.recv = none := l1
    rw [l2]
    exact ⟨_, rfl, rfl, rfl⟩
  · have e1 : (Arrival.closing.apply it).sub.Err.recv =
        some (none, { buf := [], closed := true }) := by
      simp [Arrival.apply, Arrival.closing, Subscription.Err, he2, Chan.push, Chan.close,
        Chan.recv]
      rfl
    have l1 : (Arrival.closing.apply it).logs.recv = none := by
      simp [Arrival.apply, Arrival.closing, Chan.push_nil, hl]
    rw [Next_takes_err pick (Arrival.closing.apply it) hf hd none _ e1 (Or.inr l1),
      Next_of_done pick (afterErr (Arrival.closing.apply it) none _) rfl rfl]
    have l2 : (afterErr (Arrival.closing.apply it) none
        { buf := [], closed := true }).logs.recv = none := l1
    rw [l2]
    exact ⟨_, rfl, rfl, rfl⟩
  · intro e
    have e1 : ((Arrival.failing e).apply it).sub.Err.recv =
        some (some e, { buf := [], closed := false }) := by
      simp [Arrival.apply, Arrival.failing, Subscription.Err, he2, Chan.push, Chan.recv]
    have l1 : ((Arrival.failing e).apply it).logs.recv = none := by
      simp [Arrival.apply, Arrival.failing, Chan.push_nil, hl]
    rw [Next_takes_err pick ((Arrival.failing e).apply it) hf hd (some e) _ e1 (Or.inr l1)]
    refine ⟨_, Next_of_fail _ _ rfl, rfl, ?_, rfl⟩
    intro h
    cases h

/-- C13 at a fresh iterator with an empty log channel and a live
subscription: the call waits; after `Close` it returns false with a nil
error, and after the failure `subError` it returns false with that error. -/
theorem cancelled_next_returns_false_without_error_witness :
    (sampleIterator [] liveSub false none).fail = none ∧
      (sampleIterator [] liveSub false none).done = false ∧
      (sampleIterator [] liveSub false none).logs.recv = none ∧
      (sampleIterator [] liveSub false none).sub.Err.recv = none ∧
      (sampleIterator [] liveSub false none).sub.unsubscribed = false ∧
      (sampleIterator [] liveSub false none).Next Pick.logs = none ∧
      (∃ it1, (sampleIterator [] liveSub false none).Close.2.Next Pick.logs =
          some (false, it1) ∧ it1.Error = none ∧ it1.done = true) ∧
      (∃ it1, ((Arrival.failing subError).apply
          (sampleIterator [] liveSub false none)).Next Pick.logs = some (false, it1) ∧
        it1.Error = some subError ∧ it1.Error ≠ none ∧ it1.done = true) :=
  ⟨rfl, rfl, rfl, rfl, rfl,
    (cancelled_next_returns_false_without_error Pick.logs
      (sampleIterator [] liveSub false none) rfl rfl rfl rfl rfl).1,
    (cancelled_next_returns_false_without_error Pick.logs
      (sampleIterator [] liveSub false none) rfl rfl rfl rfl rfl).2.1,
    (cancelled_next_returns_false_without_error Pick.logs
      (sampleIterator [] liveSub false none) rfl rfl rfl rfl rfl).2.2.2 subError⟩

/-- C14: over every sequence `ops` of `Next`, `Error` and `Close` calls
(and arrivals in the channels) that runs from `it` to `fin`: `done` never
goes from true back to false; a recorded non-nil error is never changed or
cleared, so it is assigned at most once and `Error()` keeps returning it;
and if `it` is failed, or is done with the log channel empty and no further
record arriving (the state in which `Next` has reported "no more events"),
every call of `Next` in the sequence returns false. -/
theorem cursor_state_is_monotone (ops : List Op)
    (it fin : TestimoniumSubmitBlockHeaderIterator) (results : List Bool)
    (hrun : runOps ops it = some (results, fin)) :
    (it.done = true → fin.done = true) ∧
      (∀ e, it.fail = some e → fin.fail = some e ∧ fin.Error = some e) ∧
      (it.fail.isSome = true → ∀ b ∈ results, b = false) ∧
      (it.done = true → it.logs.recv = none → (∀ a, Op.arrive a ∈ ops → a.logs = []) →
        ∀ b ∈ results, b = false) := by
  obtain ⟨hd, hf⟩ := runOps_monotone ops it fin results hrun
  have hex : (it.fail.isSome = true ∨
      (it.done = true ∧ it.logs.recv = none ∧ ∀ a, Op.arrive a ∈ ops → a.logs = [])) →
      ∀ b ∈ results, b = false := by
    intro h
    obtain ⟨results1, fin1, hr, hall⟩ := runOps_exhausted ops it h
    rw [hrun] at hr
    simp only [Option.some.injEq, Prod.mk.injEq] at hr
    rw [hr.1]
    exact hall
  exact ⟨hd, fun e he => ⟨hf e he, hf e he⟩, fun h => hex (Or.inl h),
    fun h1 h2 h3 => hex (Or.inr ⟨h1, h2, h3⟩)⟩

/-- C14 at an iterator that is done with an empty log channel, over the
calls `Next`, `Close`, `Error`, `Next`: both calls of `Next` return false and
the iterator is still done. -/
theorem cursor_state_is_monotone_witness :
    runOps [Op.next Pick.logs, Op.close, Op.error, Op.next Pick.err]
        (sampleIterator [] completedSub true none) =
      some ([false, false],
        { sampleIterator [] completedSub true none with sub := completedSub.Unsubscribe }) ∧
      ({ sampleIterator [] completedSub true none with
          sub := completedSub.Unsubscribe } : TestimoniumSubmitBlockHeaderIterator).done = true ∧
      ∀ b ∈ [false, false], b = false := by
  have hrun : runOps [Op.next Pick.logs, Op.close, Op.error, Op.next Pick.err]
        (sampleIterator [] completedSub true none) =
      some ([false, false],
        { sampleIterator [] completedSub true none with
          sub := completedSub.Unsubscribe }) := by
    rw [runOps, Next_exhausted Pick.logs (sampleIterator [] completedSub true none)
      (Or.inr ⟨rfl, rfl⟩)]
    simp only [runOps]
    rw [Next_exhausted Pick.err (sampleIterator [] completedSub true none).Close.2
      (Or.inr ⟨rfl, rfl⟩)]
    rfl
  obtain ⟨h1, _, _, h4⟩ := cursor_state_is_monotone _ _ _ _ hrun
  exact ⟨hrun, h1 rfl, h4 rfl rfl (by simp)⟩

/-- C15: `Next` invokes itself at most once per call.  The counting version
returns what `Next` returns; its count is at most one, and it is one exactly
when the iterator is in progress and the select takes the error case.  The
call invoked then runs on an iterator with `done` set and `fail` equal to the
received value, and returns without a further invocation and without
waiting.  `Next` waits only in the select of an iterator in progress with
neither channel ready, so it returns once the select is resolved; and on a
done iterator `Next` always returns, with false and no change when the log
channel is empty. -/
theorem next_reinvokes_itself_at_most_once (pick : Pick)
    (it : TestimoniumSubmitBlockHeaderIterator) :
    (it.NextCounting pick).map (fun r => r.2) = it.Next pick ∧
      (∀ n r, it.NextCounting pick = some (n, r) →
        n ≤ 1 ∧ (n = 1 ↔ it.fail = none ∧ it.done = false ∧
          ∃ err erest, it.sub.Err.recv = some (err, erest) ∧
            (pick = Pick.err ∨ it.logs.recv = none))) ∧
      (∀ err erest, (afterErr it err erest).done = true ∧
        (afterErr it err erest).fail = err ∧
        ∃ r, (afterErr it err erest).Next pick = some r ∧
          (afterErr it err erest).NextCounting pick = some (0, r)) ∧
      (it.Next pick = none ↔
        it.fail = none ∧ it.done = false ∧ it.logs.recv = none ∧ it.sub.Err.recv = none) ∧
      (it.done = true →
        (∃ r, it.Next pick = some r) ∧
          (it.logs.recv = none → it.Next pick = some (false, it))) := by
  have hinner : ∀ err erest, (afterErr it err erest).done = true ∧
      (afterErr it err erest).fail = err ∧
      ∃ r, (afterErr it err erest).Next pick = some r ∧
        (afterErr it err erest).NextCounting pick = some (0, r) :=
    fun err erest => ⟨rfl, rfl, NextCounting_settled pick (afterErr it err erest) (Or.inr rfl)⟩
  have hnot : (it.fail.isSome = true ∨ it.done = true) →
      ¬ (it.fail = none ∧ it.done = false) := by
    rintro (h | h) ⟨h1, h2⟩
    · rw [h1] at h; cases h
    · rw [h2] at h; cases h
  rcases NextCounting_cases pick it with ⟨hs, r, h1, h2⟩ | ⟨⟨hf0, hd0⟩, hc⟩
  · refine ⟨by rw [h1, h2]; rfl, ?_, hinner, ?_, ?_⟩
    · intro n r1 hn
      rw [h2] at hn
      simp only [Option.some.injEq, Prod.mk.injEq] at hn
      obtain ⟨rfl, _⟩ := hn
      refine ⟨Nat.zero_le 1, ⟨fun h => (by cases h), fun h => ?_⟩⟩
      exact absurd ⟨h.1, h.2.1⟩ (hnot hs)
    · rw [h1]
      exact ⟨fun h => (by cases h), fun h => absurd ⟨h.1, h.2.1⟩ (hnot hs)⟩
    · intro _
      refine ⟨⟨r, h1⟩, fun hl => Next_exhausted pick it ?_⟩
      rcases hs with hs | hs
      · exact Or.inl hs
      · exact Or.inr ⟨hs, hl⟩
  · have hdone : it.done = true →
        (∃ r, it.Next pick = some r) ∧
          (it.logs.recv = none → it.Next pick = some (false, it)) := by
      intro hd
      rw [hd0] at hd
      cases hd
    rcases hc with ⟨r, h1, h2, hno⟩ | ⟨r, h1, h2, hyes⟩ | ⟨h1, h2, hl, he⟩
    · refine ⟨by rw [h1, h2]; rfl, ?_, hinner, ?_, hdone⟩
      · intro n r1 hn
        rw [h2] at hn
        simp only [Option.some.injEq, Prod.mk.injEq] at hn
        obtain ⟨rfl, _⟩ := hn
        exact ⟨Nat.zero_le 1, ⟨fun h => (by cases h), fun h => absurd h.2.2 hno⟩⟩
      · rw [h1]
        refine ⟨fun h => (by cases h), fun h => ?_⟩
        rcases select_resolution pick it with ⟨_, _, hl, _⟩ | ⟨_, _, he, _⟩ | ⟨hl, he⟩
        · rw [h.2.2.1] at hl; cases hl
        · rw [h.2.2.2] at he; cases he
        · rw [Next_waits pick it hf0 hd0 hl he] at h1; cases h1
    · refine ⟨by rw [h1, h2]; rfl, ?_, hinner, ?_, hdone⟩
      · intro n r1 hn
        rw [h2] at hn
        simp only [Option.some.injEq, Prod.mk.injEq] at hn
        obtain ⟨rfl, _⟩ := hn
        exact ⟨Nat.le_refl 1, ⟨fun _ => ⟨hf0, hd0, hyes⟩, fun _ => rfl⟩⟩
      · rw [h1]
        refine ⟨fun h => (by cases h), fun h => ?_⟩
        obtain ⟨err, erest, he, _⟩ := hyes
        rw [h.2.2.2] at he
        cases he
    · refine ⟨by rw [h1, h2]; rfl, ?_, hinner, ?_, hdone⟩
      · intro n r1 hn
        rw [h2] at hn
        cases hn
      · rw [h1]
        exact ⟨fun _ => ⟨hf0, hd0, hl, he⟩, fun _ => rfl⟩

/-- C16: when `WatchLogs` fails with `err`, `WatchSubmitBlockHeader` returns
`(nil, err)` and no loop is started.  When it succeeds, the loop starts on
the subscription `sub` it returned with nothing received or sent; as long as
the loop runs it leaves `sub` alone, and whenever the loop has returned a
result, on whatever path (decode failure, error-channel value or `quit`,
while waiting or while delivering), `Unsubscribe` has been invoked on `sub`
exactly once by then. -/
theorem watch_unsubscribes_once_on_exit (f : TestimoniumFilterer) (opts : WatchOpts)
    (sched : List Wake) :
    (∀ err, f.contract.WatchLogs opts "SubmitBlockHeader" = Except.error err →
        f.WatchSubmitBlockHeader opts = (none, some err)) ∧
      (∀ logs sub, f.contract.WatchLogs opts "SubmitBlockHeader" = Except.ok (logs, sub) →
        f.WatchSubmitBlockHeader opts = (some (WatchState.mk sub [] [] none), none) ∧
        ((watchLoop f.contract sched (WatchState.mk sub [] [] none)).result = none →
          (watchLoop f.contract sched (WatchState.mk sub [] [] none)).sub = sub) ∧
        (∀ r, (watchLoop f.contract sched (WatchState.mk sub [] [] none)).result = some r →
          (watchLoop f.contract sched (WatchState.mk sub [] [] none)).sub = sub.Unsubscribe ∧
          (watchLoop f.contract sched (WatchState.mk sub [] [] none)).sub.unsubscribeCalls =
            sub.unsubscribeCalls + 1 ∧
          (watchLoop f.contract sched (WatchState.mk sub [] [] none)).sub.unsubscribed =
            true)) := by
  constructor
  · intro err h
    simp [TestimoniumFilterer.WatchSubmitBlockHeader, h]
  · intro logs sub h
    refine ⟨by simp [TestimoniumFilterer.WatchSubmitBlockHeader, h], ?_, ?_⟩
    · intro hres
      rcases watchLoop_sub f.contract sched (WatchState.mk sub [] [] none) rfl with
        ⟨_, h2⟩ | ⟨r, h1, _⟩
      · exact h2
      · rw [hres] at h1
        cases h1
    · intro r hres
      rcases watchLoop_sub f.contract sched (WatchState.mk sub [] [] none) rfl with
        ⟨h1, _⟩ | ⟨r1, _, h2⟩
      · rw [hres] at h1
        cases h1
      · rw [h2]
        exact ⟨rfl, Subscription.Unsubscribe_counts sub⟩

/-- C16 at a contract whose `WatchLogs` fails, and at a loop over
`sampleContract` that delivers one log and is then cancelled. -/
theorem watch_unsubscribes_once_on_exit_witness :
    TestimoniumFilterer.WatchSubmitBlockHeader ⟨failingContract⟩ ⟨none⟩ =
        (none, some queryError) ∧
      (watchLoop sampleContract [delivered (sampleLog 1), Wake.quit]
        (WatchState.mk liveSub [] [] none)).result = some none ∧
      (watchLoop sampleContract [delivered (sampleLog 1), Wake.quit]
        (WatchState.mk liveSub [] [] none)).sub.unsubscribeCalls = 1 :=
  ⟨(watch_unsubscribes_once_on_exit ⟨failingContract⟩ ⟨none⟩ []).1 queryError rfl,
    by decide,
    (((watch_unsubscribes_once_on_exit ⟨sampleContract⟩ ⟨none⟩
      [delivered (sampleLog 1), Wake.quit]).2 { buf := [], closed := false } liveSub rfl).2.2
        none (by decide)).2.1⟩

end Testimonium
